import Mathlib

/-!
Verification development for the vzdv background-task runner
(`vzdv-tasks`): a shallow embedding, in Lean, of the roster
reconciliation, activity reconciliation, certification lifecycle,
expiration sweeps and the scheduler wiring, together with theorems
checking the stated properties of those components.

Modelling conventions, used throughout:

* SQLite tables are Lean lists of records; an SQL `UPDATE ... WHERE`
  is a `List.map` that rewrites every matching row, `DELETE ... WHERE`
  is a `List.filter`, and `INSERT` is an append.  Surrogate `id`
  columns that the tasks never read are dropped from the record types.
* `chrono` timestamps are integers (`Int`); the tasks only ever compare
  them, format them, or store them back unchanged.  Timestamp values
  that the code stores without interpreting are kept as their source
  strings.
* Results of parsing routines from the Rust standard library / chrono
  (`str::parse::<f32>`, `DateTime::parse_from_rfc3339`) are modelled as
  the parse's outcome: an `Option` field for data parsed inside the
  function under study, or a `String → Bool` success oracle passed as a
  parameter when only success/failure matters.  A Rust `?` on such a
  result is an early error return; a Rust `.unwrap()` on a failed parse
  is a panic, modelled as `none` at the whole-run level (a panic kills
  the enclosing run; it is not caught by the per-item `if let Err`
  recovery in the callers).
* `f32` arithmetic on session durations is modelled over `ℚ`;
  `f32::round` on the non-negative values that occur here agrees with
  `round : ℚ → ℤ`, and the saturating `as u32` cast is `Int.toNat`.
* Functions that live in the `vzdv` library crate root (whose source
  file is not part of this tree) are taken as parameters:
  `position_in_facility_airspace` becomes an `inAir : String → Bool`
  predicate on callsigns, and `generate_operating_initials_for`
  becomes an `alloc` function from the in-use initials and a name to
  the freshly allocated initials.
-/

/-! ## Comma-delimited role strings

`Controller.roles` is stored as one comma-delimited string of short
role codes; `vzdv-tasks/src/roster.rs` splits it with Rust
`str::split(',')` and rebuilds it with `Vec::join(",")`.  The two
functions below are those operations on the underlying character
lists.  Rust `split(',')` always yields at least one piece: splitting
the empty string yields `[""]`. -/

/-- Rust `str::split(',')` on a character list. -/
def splitCommaL : List Char → List (List Char)
  | [] => [[]]
  | c :: rest =>
    if c = ',' then [] :: splitCommaL rest
    else
      match splitCommaL rest with
      | [] => [[c]]
      | h :: t => (c :: h) :: t

/-- Rust `Vec::join(",")` on character lists. -/
def joinCommaL : List (List Char) → List Char
  | [] => []
  | [x] => x
  | x :: y :: rest => x ++ ',' :: joinCommaL (y :: rest)

/-- Rust `str::split(',')` at the `String` level. -/
def splitComma (s : String) : List String :=
  (splitCommaL s.data).map (fun l => String.mk l)

/-- Rust `Vec::join(",")` at the `String` level. -/
def joinComma (l : List String) : String :=
  String.mk (joinCommaL (l.map String.data))

/-- A string that contains no comma, hence survives a split/join round
trip as a single piece. -/
def CommaFree (s : String) : Prop := ',' ∉ s.data

instance (s : String) : Decidable (CommaFree s) := by
  unfold CommaFree; infer_instance

/-- The set of role codes denoted by a stored comma-delimited roles
string. -/
def rolesFinset (s : String) : Finset String := (splitComma s).toFinset

/-! ## Scheduler wiring (vzdv-tasks/src/main.rs)

`main` builds one `clokwerk` scheduler with seven jobs and two tokio
`Semaphore(1)` guards (`roster_semaphore`, `activity_semaphore`).  The
embedding below records, for the four reconciliation jobs, which
semaphore the job's closure touches and how:

* `guard`: the semaphore named in the closure.  The full-roster job
  (main.rs:88) and the partial-roster job (main.rs:68) both name
  `roster_semaphore`; the partial-activity job (main.rs:110) names
  `activity_semaphore`; the full-activity job (main.rs:132) names
  `roster_semaphore` (not the activity one).
* `blockingAcquire`: `true` for `.acquire().await.unwrap()` (full
  jobs), `false` for the `try_acquire()` probe (partial jobs).
* `permitHeldDuringBody`: whether the acquired `SemaphorePermit` is
  bound to a live binding for the duration of the job body.  Both full
  jobs write `let _ = sem.acquire().await.unwrap();`; in Rust the `_`
  pattern does not bind, so the permit is dropped — and the semaphore
  released — at the end of that statement, before the job body runs.
  Hence `false` for every job.
* `skipsWhenUnavailable`: whether the closure returns without doing
  any work when `try_acquire()` fails (the partial jobs' early
  `return`). -/

inductive Resource
  | roster
  | activity
deriving DecidableEq, Repr

structure ScheduledJob where
  intervalMinutes : Nat
  guard : Option Resource
  blockingAcquire : Bool
  permitHeldDuringBody : Bool
  skipsWhenUnavailable : Bool
deriving DecidableEq, Repr

/-- The every-5-minutes partial roster update job (main.rs:59-76). -/
def rosterSpotJob : ScheduledJob :=
  { intervalMinutes := 5
    guard := some Resource.roster
    blockingAcquire := false
    permitHeldDuringBody := false
    skipsWhenUnavailable := true }

/-- The every-2-hours full roster update job (main.rs:79-96). -/
def rosterFullJob : ScheduledJob :=
  { intervalMinutes := 120
    guard := some Resource.roster
    blockingAcquire := true
    permitHeldDuringBody := false
    skipsWhenUnavailable := false }

/-- The every-15-minutes partial (online) activity job (main.rs:99-118). -/
def activitySpotJob : ScheduledJob :=
  { intervalMinutes := 15
    guard := some Resource.activity
    blockingAcquire := false
    permitHeldDuringBody := false
    skipsWhenUnavailable := true }

/-- The every-6-hours full activity sync job (main.rs:121-140).  Its
closure clones and acquires `roster_semaphore`, not
`activity_semaphore` (main.rs:124, 128, 132). -/
def activityFullJob : ScheduledJob :=
  { intervalMinutes := 360
    guard := some Resource.roster
    blockingAcquire := true
    permitHeldDuringBody := false
    skipsWhenUnavailable := false }

/-- Number of permits available on resource `r`'s `Semaphore(1)` while
the body of job `full` is running (i.e. after its acquire statement
finished): zero only if that job took the permit of `r` and still
holds it. -/
def permitsDuringBody (full : ScheduledJob) (r : Resource) : Nat :=
  if full.guard = some r ∧ full.permitHeldDuringBody then 0 else 1

/-- Whether a tick of job `spot`, fired while job `full`'s body is in
flight, skips without performing any work: its `try_acquire()` fails
exactly when its guard has no free permit. -/
def tickSkips (full spot : ScheduledJob) : Bool :=
  match spot.guard with
  | some r => spot.skipsWhenUnavailable && permitsDuringBody full r = 0
  | none => false

/-- Statement of claim C1 over the embedded scheduler wiring: each full
job acquires the guard of its own resource and holds it for the run,
and each partial job fired meanwhile skips its tick. -/
def mutualExclusionClaim : Prop :=
  rosterFullJob.guard = some Resource.roster ∧
  activityFullJob.guard = some Resource.activity ∧
  rosterFullJob.permitHeldDuringBody = true ∧
  activityFullJob.permitHeldDuringBody = true ∧
  tickSkips rosterFullJob rosterSpotJob = true ∧
  tickSkips activityFullJob activitySpotJob = true

instance : Decidable mutualExclusionClaim := by
  unfold mutualExclusionClaim; infer_instance

/-! ## Certification rows and the off-roster strip
(vzdv-tasks/src/roster.rs:135-156, vzdv/src/sql.rs) -/

structure Certification where
  id : Nat
  cid : Nat
  name : String
  /-- one of "none", "training", "solo", "certified" -/
  value : String
  changed_on : Int
  set_by : Nat
deriving DecidableEq, Repr

/-- Guard of the strip-on-removal branch as written at roster.rs:140:
the fetched certification rows for the dropped cid are tested with
`certs.is_empty()`. -/
def stripGuardHolds (certs : List Certification) (cid : Nat) : Bool :=
  (certs.filter (fun c => c.cid = cid)).isEmpty

/-- Off-roster certification cascade for one dropped cid, as written
(roster.rs:136-156): fetch the cid's certification rows; if that list
`is_empty`, run `DELETE FROM certification WHERE cid=$1`; otherwise do
nothing. -/
def offRosterCascadeCerts (certs : List Certification) (cid : Nat) :
    List Certification :=
  if stripGuardHolds certs cid then certs.filter (fun c => ¬ c.cid = cid)
  else certs

/-! ## Solo-certification expiration sweep (vzdv-tasks/src/solo_cert.rs)

`check_expired` fetches every `solo_cert` row, and for each one whose
`expiration_date` is before now: deletes it (`DELETE FROM solo_cert
WHERE id=$1`), fetches the controller's certification rows from the
current table, and sets every fetched row whose `value` is `"solo"`
back to `"training"` via `UPDATE certification SET value=$2,
changed_on=$3, set_by=$4 WHERE id=$1`, binding the fetched row's own
`changed_on` and `set_by`.  Every sqlx call is followed by `?`, so a
store failure aborts the remaining iterations; the failure oracles
`delFails` / `updFails` (by row id) model which deletes/updates fail.
`id` columns are the tables' unique keys. -/

structure SoloCert where
  id : Nat
  cid : Nat
  issued_by : Nat
  position : String
  reported : Bool
  created_date : Int
  expiration_date : Int
deriving DecidableEq, Repr

structure SweepSt where
  solo_certs : List SoloCert
  certifications : List Certification
deriving DecidableEq, Repr

/-- The `UPDATE certification SET value='training', changed_on=$3,
set_by=$4 WHERE id=$1` statement, with `$3`/`$4` bound from the fetched
row `u` (solo_cert.rs:38-44). -/
def applyCertificationTraining (u : Certification)
    (certs : List Certification) : List Certification :=
  certs.map (fun c =>
    if c.id = u.id then
      { c with value := "training", changed_on := u.changed_on,
               set_by := u.set_by }
    else c)

/-- The inner loop of `check_expired` (solo_cert.rs:31-46) over the
fetched certification rows of one controller: each fetched row with
`value = "solo"` is set back to training; a failing update aborts,
keeping the updates already made. -/
def updateCertsLoop (updFails : Nat → Bool) (certs : List Certification) :
    List Certification → List Certification × Bool
  | [] => (certs, true)
  | u :: rest =>
    if u.value = "solo" then
      if updFails u.id then (certs, false)
      else updateCertsLoop updFails (applyCertificationTraining u certs) rest
    else updateCertsLoop updFails certs rest

/-- One tick of the solo-cert expiration sweep (solo_cert.rs:8-51),
iterating over the solo-cert rows fetched at tick start.  Returns the
resulting store state plus `true` if the tick ran to completion,
`false` if a store failure cut it short (the `?` early return). -/
def sweepSolo (now : Int) (delFails updFails : Nat → Bool) :
    List SoloCert → SweepSt → SweepSt × Bool
  | [], st => (st, true)
  | sc :: rest, st =>
    if sc.expiration_date < now then
      if delFails sc.id then (st, false)
      else
        let st1 : SweepSt :=
          { st with solo_certs := st.solo_certs.filter (fun x => ¬ x.id = sc.id) }
        match updateCertsLoop updFails st1.certifications
            (st1.certifications.filter (fun c => c.cid = sc.cid)) with
        | (certs1, true) =>
          sweepSolo now delFails updFails rest { st1 with certifications := certs1 }
        | (certs1, false) => ({ st1 with certifications := certs1 }, false)
    else sweepSolo now delFails updFails rest st

/-- Failure oracle for a tick during which every store call succeeds. -/
def noFailures : Nat → Bool := fun _ => false

/-! ## No-show expiration sweep (vzdv-tasks/src/no_show_expiration.rs)

Each fetched `no_show` row expires when `created_date` plus six
calendar months is before now; the calendar addition
`checked_add_months(Months::new(6))` is passed in as `addSixMonths`
(it can fail, and that failure — like a failed delete — hits a `?` and
aborts the tick). -/

structure NoShow where
  id : Nat
  cid : Nat
  reported_by : Nat
  entry_type : String
  created_date : Int
  notified : Bool
deriving DecidableEq, Repr

/-- One tick of the no-show expiration sweep
(no_show_expiration.rs:7-35) over the rows fetched at tick start. -/
def sweepNoShow (now : Int) (addSixMonths : Int → Option Int)
    (delFails : Nat → Bool) :
    List NoShow → List NoShow → List NoShow × Bool
  | [], st => (st, true)
  | e :: rest, st =>
    match addSixMonths e.created_date with
    | none => (st, false)
    | some expiry =>
      if expiry < now then
        if delFails e.id then (st, false)
        else sweepNoShow now addSixMonths delFails rest
          (st.filter (fun x => ¬ x.id = e.id))
      else sweepNoShow now addSixMonths delFails rest st

/-! ## Roster data model and reconciliation (vzdv-tasks/src/roster.rs)

The `controller` table row (vzdv/src/sql.rs `Controller`), minus the
surrogate `id`.  `join_date` keeps the rfc3339 string that
`update_controller_record` parses and stores; the success of that
chrono parse is tracked by the `dateOk` oracle below. -/

structure Controller where
  cid : Nat
  first_name : String
  last_name : String
  email : Option String
  operating_initials : Option String
  rating : Int
  status : String
  discord_id : Option String
  home_facility : String
  is_on_roster : Bool
  roles : String
  join_date : Option String
  loa_until : Option String
deriving DecidableEq, Repr

/-- A VATUSA roster member's role entry (vzdv/src/vatusa.rs
`RosterMemberRole`), restricted to the fields the sync reads. -/
structure RosterMemberRole where
  facility : String
  role : String
deriving DecidableEq, Repr

/-- A VATUSA roster member (vzdv/src/vatusa.rs `RosterMember`),
restricted to the fields `update_controller_record` reads. -/
structure RosterMember where
  cid : Nat
  first_name : String
  last_name : String
  email : Option String
  facility : String
  rating : Int
  facility_join : String
  roles : List RosterMemberRole
deriving DecidableEq, Repr

/-- The local store state touched by the roster jobs: the `controller`
and `certification` tables. -/
structure RosterSt where
  controllers : List Controller
  certifications : List Certification
deriving DecidableEq, Repr

/-- The fixed set of externally-recognized role codes
(roster.rs:18). -/
def roles_to_match : List String := ["ATM", "DATM", "TA", "MTR"]

/-- The externally-derived role list for one member (roster.rs:19-38):
the member's VATUSA role entries for facility "ZDV" whose code is in
`roles_to_match`, plus "INS" when the member is a ZDV home controller
with a network rating in the instructor band `[8, 9, 10]`. -/
def extRoles (m : RosterMember) : List String :=
  let base := (m.roles.filter (fun r => r.facility = "ZDV")).filterMap
    (fun r => if roles_to_match.contains r.role then some r.role else none)
  if m.facility = "ZDV" ∧ ([8, 9, 10] : List Int).contains m.rating then
    base ++ ["INS"]
  else base

/-- `GET_CONTROLLER_BY_CID` (`fetch_optional`): the first `controller`
row with the given cid, if any. -/
def findController (st : RosterSt) (cid : Nat) : Option Controller :=
  st.controllers.find? (fun c => c.cid = cid)

/-- The admissible results of merging the computed external roles into
the stored roles string (roster.rs:46-59 and the `roles.join(",")`
bind at line 72): split the stored string on commas, insert the pieces
and the external roles into a `HashSet`, then join an enumeration of
that set.  A Rust `HashSet`'s iteration order is unspecified, so any
duplicate-free enumeration `l` of the union is a possible stored
outcome. -/
def rolesOutcome (existing : String) (ext : List String) (s : String) : Prop :=
  ∃ l : List String, l.Nodup ∧
    l.toFinset = rolesFinset existing ∪ ext.toFinset ∧ s = joinComma l

/-- Upsert of the main controller record (`UPSERT_USER_TASK`,
sql.rs:441-457, executed at roster.rs:62-74) applied to one existing
row: identity fields, rating, home facility, on-roster flag (true),
join date and the merged roles string; the row's other columns
(operating initials, status, discord id, LOA) are untouched. -/
def upsertFields (m : RosterMember) (c : Controller) (rolesStr : String) :
    Controller :=
  { c with
    first_name := m.first_name
    last_name := m.last_name
    email := m.email
    rating := m.rating
    home_facility := m.facility
    is_on_roster := true
    join_date := some m.facility_join
    roles := rolesStr }

/-- The freshly inserted `controller` row for a cid not yet in the
table (`UPSERT_USER_TASK`'s INSERT arm): columns the INSERT does not
name take their defaults (no operating initials, empty status, no
discord id, no LOA). -/
def newControllerFrom (m : RosterMember) (rolesStr : String) : Controller :=
  { cid := m.cid
    first_name := m.first_name
    last_name := m.last_name
    email := m.email
    operating_initials := none
    rating := m.rating
    status := ""
    discord_id := none
    home_facility := m.facility
    is_on_roster := true
    roles := rolesStr
    join_date := some m.facility_join
    loa_until := none }

/-- The `UPSERT_USER_TASK` execution (roster.rs:62-74): update every
row with the member's cid, or insert a fresh row when there is
none. -/
def upsertMain (st : RosterSt) (m : RosterMember) (rolesStr : String) :
    RosterSt :=
  match findController st m.cid with
  | some _ =>
    { st with controllers := st.controllers.map (fun c =>
        if c.cid = m.cid then upsertFields m c rolesStr else c) }
  | none =>
    { st with controllers := st.controllers ++ [newControllerFrom m rolesStr] }

/-- All operating initials currently in use.  Modelled from the spec:
`retrieve_all_in_use_ois` lives in the vzdv crate root, whose source
file is not in this tree; per the spec the allocator receives "a set
of initials already in use", which for the controller table is every
set `operating_initials` value. -/
def inUseOIs (st : RosterSt) : List String :=
  st.controllers.filterMap (fun c => c.operating_initials)

/-- The `UPDATE_CONTROLLER_OIS` execution (roster.rs:83-87): store the
freshly allocated initials on the member's row.  The allocator
`generate_operating_initials_for` also lives in the missing crate
root and is passed in as `alloc` (in-use initials, first name, last
name). -/
def setOIs (alloc : List String → String → String → String)
    (st : RosterSt) (m : RosterMember) : RosterSt :=
  let fresh := alloc (inUseOIs st) m.first_name m.last_name
  { st with controllers := st.controllers.map (fun c =>
      if c.cid = m.cid then { c with operating_initials := some fresh }
      else c) }

/-- The write portion of `update_controller_record` (roster.rs:61-98)
given the merged roles string: run the upsert, then — when the cid was
new to the table or its row was off-roster — allocate and store fresh
operating initials.  The off-roster test uses the row fetched before
the upsert (roster.rs:41-44, 76). -/
def applyUpsert (alloc : List String → String → String → String)
    (st : RosterSt) (m : RosterMember) (rolesStr : String) : RosterSt :=
  let old := findController st m.cid
  let st1 := upsertMain st m rolesStr
  let oiNeeded : Bool :=
    match old with
    | none => true
    | some c => ! c.is_on_roster
  if oiNeeded then setOIs alloc st1 m else st1

/-- One run of `update_controller_record` (roster.rs:16-99) for member
`m`, as a relation on store states (relational because of the hash-set
enumeration in the roles merge).  `dateOk` tells whether chrono can
parse `m.facility_join`; on failure the `?` at roster.rs:71 returns
before any write, and the caller logs and moves on. -/
def StepRel (alloc : List String → String → String → String)
    (dateOk : String → Bool) (m : RosterMember) (st st' : RosterSt) : Prop :=
  if dateOk m.facility_join then
    match findController st m.cid with
    | some c => ∃ s, rolesOutcome c.roles (extRoles m) s ∧
        st' = applyUpsert alloc st m s
    | none => st' = applyUpsert alloc st m (joinComma (extRoles m))
  else st' = st

/-- The per-member loop of `update_roster` (roster.rs:109-113): each
member is processed with `update_controller_record`; a member's error
is logged and the loop continues. -/
def Phase1 (alloc : List String → String → String → String)
    (dateOk : String → Bool) : List RosterMember → RosterSt → RosterSt → Prop
  | [], st, st' => st' = st
  | m :: rest, st, st' =>
    ∃ stm, StepRel alloc dateOk m st stm ∧ Phase1 alloc dateOk rest stm st'

/-- `UPDATE_REMOVED_FROM_ROSTER` (sql.rs:470) applied to one row:
`is_on_roster=0, home_facility='', join_date=NULL,
operating_initials=NULL`; every other column is untouched. -/
def clearRemoved (c : Controller) : Controller :=
  { c with
    is_on_roster := false
    home_facility := ""
    join_date := none
    operating_initials := none }

/-- The removed-controller pass of `update_roster` (roster.rs:115-158):
every stored cid absent from the fetched roster is marked off-roster
and runs the certification cascade.  The map/fold formulation matches
the row-by-row loop: each row's update touches only that row. -/
def markRemoved (st : RosterSt) (externalCids : List Nat) : RosterSt :=
  let offCids := (st.controllers.map (fun c => c.cid)).filter
    (fun cid => ! externalCids.contains cid)
  { controllers := st.controllers.map (fun c =>
      if externalCids.contains c.cid then c else clearRemoved c)
    certifications := offCids.foldl offRosterCascadeCerts st.certifications }

/-- One successful full roster sync (`update_roster`,
roster.rs:102-165): process every fetched member, then mark everyone
not in the fetch as removed.  The top-level roster fetch has
succeeded, returning `members`. -/
def FullSyncRel (alloc : List String → String → String → String)
    (dateOk : String → Bool) (st : RosterSt) (members : List RosterMember)
    (st' : RosterSt) : Prop :=
  ∃ stm, Phase1 alloc dateOk members st stm ∧
    st' = markRemoved stm (members.map (fun m => m.cid))

/-- One `VATUSA_SYNC` queue request whose single-member fetch returned
`m` (`partial_update_roster_single`, roster.rs:167-174): the very same
per-member upsert as the full sync, with no roster-membership
check. -/
def QuickSyncRel (alloc : List String → String → String → String)
    (dateOk : String → Bool) (m : RosterMember) (st st' : RosterSt) : Prop :=
  StepRel alloc dateOk m st st'

/-! ## Activity reconciliation (vzdv-tasks/src/activity.rs)

A VATSIM ATC session as consumed by the activity jobs: callsign, start
timestamp string, and the result of `minutes_on_callsign.parse::<f32>()`
(`none` when the duration field is not numeric — the code calls
`.unwrap()` on it, a panic).  The airspace membership test
`position_in_facility_airspace` lives in the missing vzdv crate root
and is the `inAir` parameter. -/

structure Session where
  callsign : String
  start : String
  minutes_on_callsign : Option ℚ
deriving DecidableEq, Repr

/-- An `activity` table row (vzdv/src/sql.rs), minus surrogates and
the join-only name columns. -/
structure ActivityRow where
  cid : Nat
  month : String
  minutes : Nat
deriving DecidableEq, Repr

/-- The session filter of the per-month grouping (activity.rs:48-53):
the session counts toward bucket `k` when its callsign is in facility
airspace and the first seven bytes of its start timestamp equal `k`. -/
def inBucket (inAir : String → Bool) (k : String) (s : Session) : Bool :=
  inAir s.callsign && (s.start.take 7 == k)

/-- Seconds accumulated in one month bucket: the per-session
`minutes_on_callsign.parse::<f32>().unwrap() * 60.0` values, summed
(activity.rs:54-58).  Only evaluated under parse success. -/
def bucketSeconds (inAir : String → Bool) (k : String)
    (sessions : List Session) : ℚ :=
  ((sessions.filter (inBucket inAir k)).map
    (fun s => s.minutes_on_callsign.getD 0 * 60)).sum

/-- `HashMap::entry(month).and_modify(acc += v).or_insert(v)` over an
association list (activity.rs:55-58). -/
def upsertQ : List (String × ℚ) → String → ℚ → List (String × ℚ)
  | [], k, v => [(k, v)]
  | (k', v') :: rest, k, v =>
    if k' = k then (k', v' + v) :: rest else (k', v') :: upsertQ rest k v

/-- Association-list lookup by month key. -/
def lookupQ : List (String × ℚ) → String → Option ℚ
  | [], _ => none
  | (k', v) :: rest, k => if k' = k then some v else lookupQ rest k

/-- The grouping loop of `true_up_single_activity` (activity.rs:46-59):
walk the fetched sessions, skip the ones outside facility airspace,
and accumulate `minutes * 60` seconds into the month bucket named by
`start[0..7]`.  Result `none` models the panics on malformed data: the
byte-slice `start[0..7]` of a start string shorter than seven bytes,
and the `.unwrap()` of a non-numeric duration. -/
def aggAux (inAir : String → Bool) (acc : List (String × ℚ)) :
    List Session → Option (List (String × ℚ))
  | [] => some acc
  | s :: rest =>
    if inAir s.callsign then
      if s.start.length < 7 then none
      else
        match s.minutes_on_callsign with
        | none => none
        | some mins => aggAux inAir (upsertQ acc (s.start.take 7) (mins * 60)) rest
    else aggAux inAir acc rest

/-- Month buckets computed from one controller's fetched sessions. -/
def aggSessions (inAir : String → Bool) (sessions : List Session) :
    Option (List (String × ℚ)) :=
  aggAux inAir [] sessions

/-- `INSERT_INTO_ACTIVITY` rows for the computed buckets
(activity.rs:70-79): one row per bucket, minutes =
`(seconds / 60.0).round() as u32`. -/
def bucketRows (cid : Nat) (buckets : List (String × ℚ)) : List ActivityRow :=
  buckets.map (fun b => { cid := cid, month := b.1,
                          minutes := Int.toNat (round ((b.2 : ℚ) / 60)) })

/-- One run of `true_up_single_activity` (activity.rs:19-84) with the
transaction's commit/rollback semantics folded in.  `fetch` is the
outcome of the session-history call (an `Err` is logged by the caller
and nothing is written); `delFails`/`insFails` say whether the
`DELETE_ACTIVITY_FOR_CID` or the insert of a given month fails inside
the transaction — any such failure rolls the transaction back, leaving
the table as it was.  Result: `none` for a panic, otherwise the table
after the run plus `true` iff the run returned `Ok`. -/
def trueUpSingle (inAir : String → Bool) (delFails : Bool)
    (insFails : String → Bool) (st : List ActivityRow) (cid : Nat)
    (fetch : Except Unit (List Session)) :
    Option (List ActivityRow × Bool) :=
  match fetch with
  | Except.error _ => some (st, false)
  | Except.ok sessions =>
    match aggSessions inAir sessions with
    | none => none
    | some buckets =>
      if delFails then some (st, false)
      else if buckets.any (fun b => insFails b.1) then some (st, false)
      else some ((st.filter (fun r => ¬ r.cid = cid)) ++ bucketRows cid buckets,
                 true)

/-- The driver loop `true_up_all_controllers_activity`
(activity.rs:91-111) over the on-roster cids: each controller's error
is logged and the loop continues — but a panic (`none`) kills the
whole run. -/
def trueUpAllActivity (inAir : String → Bool) (delFails : Bool)
    (insFails : String → Bool) (fetchOf : Nat → Except Unit (List Session))
    (st : List ActivityRow) : List Nat → Option (List ActivityRow)
  | [] => some st
  | cid :: rest =>
    match trueUpSingle inAir delFails insFails st cid (fetchOf cid) with
    | none => none
    | some (st', _) =>
      trueUpAllActivity inAir delFails insFails fetchOf st' rest

/-- A currently-online controller from the live feed
(`update_online_controller_activity`): cid, callsign, and the result
of chrono's rfc3339 parse of `logon_time` (`none` when malformed —
this one is hit with `?`, not `.unwrap()`). -/
structure OnlineController where
  cid : Nat
  callsign : String
  logon_time : Option Int
deriving DecidableEq, Repr

/-- The duration accumulator of `update_single_activity`
(activity.rs:122-128): seconds of this-month sessions inside facility
airspace; `none` models the `.unwrap()` panic on a non-numeric
duration. -/
def sumAirspaceSeconds (inAir : String → Bool) :
    List Session → Option ℚ
  | [] => some 0
  | s :: rest =>
    match sumAirspaceSeconds inAir rest with
    | none => none
    | some acc =>
      if inAir s.callsign then
        match s.minutes_on_callsign with
        | none => none
        | some mins => some (mins * 60 + acc)
      else some acc

/-- The update-else-insert upsert of `update_single_activity`
(activity.rs:134-151): `UPDATE_ACTIVITY` on the (cid, month) row; if
zero rows were affected, insert a fresh row. -/
def upsertActivity (st : List ActivityRow) (cid : Nat) (month : String)
    (minutes : Nat) : List ActivityRow :=
  if st.any (fun r => r.cid = cid && r.month == month) then
    st.map (fun r =>
      if r.cid = cid && r.month == month then { r with minutes := minutes }
      else r)
  else st ++ [{ cid := cid, month := month, minutes := minutes }]

/-- One run of `update_single_activity` (activity.rs:114-154): outer
`none` is a panic; inner `Except.error` is the `Err` the caller logs
before moving to the next controller.  `now - logon` is the elapsed
seconds of the current session. -/
def updateSingleActivity (inAir : String → Bool) (now : Int)
    (startOfMonth : String) (st : List ActivityRow) (c : OnlineController)
    (sessions : List Session) :
    Option (Except Unit (List ActivityRow)) :=
  match sumAirspaceSeconds inAir sessions with
  | none => none
  | some counter =>
    match c.logon_time with
    | none => some (Except.error ())
    | some logon =>
      let onlineSeconds : Int := now - logon
      let minutes : Nat :=
        Int.toNat (round (((counter + (onlineSeconds : ℚ)) : ℚ) / 60))
      some (Except.ok (upsertActivity st c.cid (startOfMonth.take 7) minutes))

/-- The driver loop `update_online_controller_activity`
(activity.rs:157-192): for each online controller that is on roster
and inside facility airspace, run the spot update; an `Err` is logged
and the loop continues, a panic (`none`) kills the run. -/
def updateOnlineActivity (inAir : String → Bool) (now : Int)
    (onRoster : List Nat) (startOfMonth : String)
    (sessionsOf : Nat → List Session) (st : List ActivityRow) :
    List OnlineController → Option (List ActivityRow)
  | [] => some st
  | c :: rest =>
    if ! onRoster.contains c.cid then
      updateOnlineActivity inAir now onRoster startOfMonth sessionsOf st rest
    else if ! inAir c.callsign then
      updateOnlineActivity inAir now onRoster startOfMonth sessionsOf st rest
    else
      match updateSingleActivity inAir now startOfMonth st c
          (sessionsOf c.cid) with
      | none => none
      | some (Except.error _) =>
        updateOnlineActivity inAir now onRoster startOfMonth sessionsOf st rest
      | some (Except.ok st') =>
        updateOnlineActivity inAir now onRoster startOfMonth sessionsOf st' rest

/-! ## Derived notions used in the claim statements -/

/-- The cids stored in the `controller` table. -/
def cidsOf (st : RosterSt) : List Nat := st.controllers.map (fun c => c.cid)

/-- Whether a controller has an expired solo certification among the
rows fetched at sweep start. -/
def hasExpiredSolo (now : Int) (solos : List SoloCert) (cid : Nat) : Bool :=
  solos.any (fun sc => sc.cid = cid && decide (sc.expiration_date < now))

/-- The ids of the expired rows among the solo certs fetched at sweep
start. -/
def expiredSoloIds (now : Int) (solos : List SoloCert) : List Nat :=
  (solos.filter (fun sc => decide (sc.expiration_date < now))).map
    (fun sc => sc.id)

/-- Two lookups of a controller row agree up to the enumeration order
of the roles string: the row exists in one iff it exists in the other,
the denoted role sets are equal, and every other column is
byte-identical. -/
def RecAgree : Option Controller → Option Controller → Prop
  | none, none => True
  | some c1, some c2 =>
    rolesFinset c2.roles = rolesFinset c1.roles ∧ c2 = { c1 with roles := c2.roles }
  | _, _ => False

/-! ## Concrete fixtures for counterexamples and witnesses -/

/-- A certification row held by a controller being dropped from the
roster (for the C2 analysis). -/
def c2cert : Certification :=
  { id := 1, cid := 100001, name := "APP", value := "certified",
    changed_on := 0, set_by := 1 }

/-- An expired solo certification for position "A" (C3). -/
def c3solo : SoloCert :=
  { id := 1, cid := 7, issued_by := 2, position := "A", reported := false,
    created_date := 0, expiration_date := 5 }

/-- The matching certification row for position "A", value solo (C3). -/
def c3certA : Certification :=
  { id := 10, cid := 7, name := "A", value := "solo", changed_on := 3, set_by := 2 }

/-- A certification row of the same controller for a different
position "B", also value solo (C3). -/
def c3certB : Certification :=
  { id := 11, cid := 7, name := "B", value := "solo", changed_on := 4, set_by := 2 }

/-- An expired solo cert whose delete the store will reject (C10). -/
def c10solo1 : SoloCert :=
  { id := 1, cid := 5, issued_by := 9, position := "DEN_TWR", reported := true,
    created_date := 0, expiration_date := 1 }

/-- A second expired solo cert, behind the failing one (C10). -/
def c10solo2 : SoloCert :=
  { id := 2, cid := 6, issued_by := 9, position := "DEN_APP", reported := true,
    created_date := 0, expiration_date := 2 }

/-- A solo-valued certification row whose training-revert update the
store will reject (C10). -/
def c10cert : Certification :=
  { id := 30, cid := 5, name := "DEN_TWR", value := "solo",
    changed_on := 0, set_by := 9 }

/-- An old no-show row whose delete the store will reject (C10). -/
def c10noshow : NoShow :=
  { id := 3, cid := 5, reported_by := 9, entry_type := "event",
    created_date := 0, notified := true }

/-- An on-roster controller row used by the roster fixtures. -/
def ctrlA : Controller :=
  { cid := 1, first_name := "Ann", last_name := "Lee", email := none,
    operating_initials := some "AL", rating := 5, status := "",
    discord_id := none, home_facility := "ZDV", is_on_roster := true,
    roles := "MTR", join_date := some "2020-01-01T00:00:00Z",
    loa_until := none }

/-- The VATUSA record for `ctrlA`'s cid, carrying one recognized role
entry (ATM at ZDV). -/
def memA : RosterMember :=
  { cid := 1, first_name := "Ann", last_name := "Lee", email := none,
    facility := "ZDV", rating := 5,
    facility_join := "2020-01-01T00:00:00Z",
    roles := [{ facility := "ZDV", role := "ATM" }] }

/-- An off-roster controller row (for the C9 witness). -/
def ctrlB : Controller :=
  { cid := 2, first_name := "Bo", last_name := "Kim", email := none,
    operating_initials := none, rating := 4, status := "",
    discord_id := none, home_facility := "", is_on_roster := false,
    roles := "EC", join_date := none, loa_until := none }

/-- The VATUSA record for `ctrlB`'s cid: no recognized role entries,
not even a ZDV member — the quick sync never checks. -/
def memB : RosterMember :=
  { cid := 2, first_name := "Bo", last_name := "Kim", email := none,
    facility := "ZLA", rating := 4,
    facility_join := "2024-06-01T00:00:00Z", roles := [] }

/-- A fixed allocator for the fixtures. -/
def allocX : List String → String → String → String := fun _ _ _ => "XX"

/-- A date oracle under which every chrono parse succeeds. -/
def okDate : String → Bool := fun _ => true

/-- Initial store for the C6 fixtures. -/
def st6 : RosterSt := { controllers := [ctrlA], certifications := [] }

/-- Result of the first C6 full sync, with the hash set enumerated in
the order ATM, MTR. -/
def st6a : RosterSt := markRemoved (applyUpsert allocX st6 memA "ATM,MTR") [1]

/-- Result of the second C6 full sync over the same snapshot, with the
hash set enumerated in the order MTR, ATM. -/
def st6b : RosterSt := markRemoved (applyUpsert allocX st6a memA "MTR,ATM") [1]

/-- A session whose `minutes_on_callsign` field is not numeric: its
`parse::<f32>()` fails, so the code's `.unwrap()` panics (C8). -/
def badSession : Session :=
  { callsign := "DEN_TWR", start := "2025-01-01 00:00:00",
    minutes_on_callsign := none }

/-- A well-formed session of a different controller (C8). -/
def goodSession : Session :=
  { callsign := "DEN_TWR", start := "2025-01-02 00:00:00",
    minutes_on_callsign := some 30 }

/-- An airspace predicate accepting every callsign (fixtures). -/
def allAir : String → Bool := fun _ => true

/-- Online controller whose session list holds the bad session (C8). -/
def online1 : OnlineController :=
  { cid := 1, callsign := "DEN_TWR", logon_time := some 0 }

/-- Online controller with only well-formed data, queued after the bad
one (C8). -/
def online2 : OnlineController :=
  { cid := 2, callsign := "DEN_APP", logon_time := some 0 }

/-- Session store for the C8 fixtures. -/
def sessionsOf8 : Nat → List Session :=
  fun cid => if cid = 1 then [badSession] else [goodSession]

/-- Online controller whose logon timestamp failed the rfc3339 parse
(C8). -/
def online3 : OnlineController :=
  { cid := 2, callsign := "DEN_APP", logon_time := none }

/-- A stale activity row from a month before the lookback window
(C5): a full true-up for its controller must not let it survive. -/
def oldRow : ActivityRow := { cid := 2, month := "2024-10", minutes := 99 }

/-- Store with one member of the snapshot and one controller about to
drop off roster (C4). -/
def st4 : RosterSt := { controllers := [ctrlA, ctrlB], certifications := [] }

/-- C4 store after the member loop. -/
def stm4 : RosterSt := applyUpsert allocX st4 memA "ATM,MTR"

/-- C4 store after the removed-controller pass. -/
def st4p : RosterSt := markRemoved stm4 [1]

/-- Store holding only the off-roster controller (C9). -/
def st9 : RosterSt := { controllers := [ctrlB], certifications := [] }

/-- C9 store after the quick sync for `memB`. -/
def st9b : RosterSt := applyUpsert allocX st9 memB "EC"

/-- `ctrlA`'s record after the first C6 run. -/
def r6a : Controller := upsertFields memA ctrlA "ATM,MTR"

/-- `ctrlA`'s record after the second C6 run. -/
def r6b : Controller := upsertFields memA r6a "MTR,ATM"

/-! # Theorems -/

/-- The off-roster certification cascade never changes the
certification table: its guard `certs.is_empty()` makes the DELETE run
exactly when the cid has no rows to delete. -/
theorem offRosterCascadeCerts_eq (certs : List Certification) (cid : Nat) :
    offRosterCascadeCerts certs cid = certs := by
  unfold offRosterCascadeCerts stripGuardHolds
  split
  · next h =>
    rw [List.filter_eq_self]
    intro a ha
    simp only [List.isEmpty_iff, List.filter_eq_nil_iff] at h
    simpa using h a ha
  · rfl

/-- C1: the claimed per-resource mutual exclusion does not hold of the
scheduler as wired.  `mutualExclusionClaim` states the claim over the
embedded job table; it is false because (i) the full-activity job
names `roster_semaphore`, not `activity_semaphore` (main.rs:132), and
(ii) both full jobs discard their `SemaphorePermit` immediately
(`let _ = ...acquire()...`), so no permit is held while a full job's
body runs and a partial tick's `try_acquire` succeeds, letting it
proceed to its writes. -/
theorem C1_mutual_exclusion_refuted :
    ¬ mutualExclusionClaim ∧
    activityFullJob.guard = some Resource.roster ∧
    rosterFullJob.permitHeldDuringBody = false ∧
    activityFullJob.permitHeldDuringBody = false ∧
    tickSkips rosterFullJob rosterSpotJob = false ∧
    tickSkips activityFullJob activitySpotJob = false := by
  decide

/-- C2: the off-roster certification strip is guarded by
`certs.is_empty()` — the opposite of the claim's "at least one
existing certification row".  At the failing input (a dropped
controller holding one certification row) the guard is false and the
rows survive; and in general the cascade can never delete anything,
since when its guard holds there is nothing to delete. -/
theorem C2_cert_strip_guard_inverted :
    stripGuardHolds [c2cert] 100001 = false ∧
    offRosterCascadeCerts [c2cert] 100001 = [c2cert] ∧
    ∀ certs cid, offRosterCascadeCerts certs cid = certs :=
  ⟨by decide, by decide, offRosterCascadeCerts_eq⟩

/-- C10: the expiration sweeps are not error-isolated per row.  In the
solo-cert sweep, a failing delete of the first expired row (or a
failing certification update during its cascade) aborts the tick with
an error, leaving every not-yet-reached expired row in place; the
no-show sweep behaves the same on a failing delete. -/
theorem C10_sweeps_abort_on_store_failure
    (now : Int) (updF : Nat → Bool) (delF : Nat → Bool)
    (sc : SoloCert) (rest : List SoloCert) (certs : List Certification)
    (hexp : sc.expiration_date < now) (hfail : delF sc.id = true)
    (delF2 updF2 : Nat → Bool) (sc2 : SoloCert) (rest2 : List SoloCert)
    (certs2 : List Certification) (u : Certification)
    (urest : List Certification)
    (hexp2 : sc2.expiration_date < now) (hdel2 : delF2 sc2.id = false)
    (hcerts2 : certs2.filter (fun c => c.cid = sc2.cid) = u :: urest)
    (hu : u.value = "solo") (hupd2 : updF2 u.id = true)
    (addSixMonths : Int → Option Int) (delFN : Nat → Bool)
    (e : NoShow) (restN : List NoShow) (stN : List NoShow)
    (expiry : Int) (hadd : addSixMonths e.created_date = some expiry)
    (hexpN : expiry < now) (hfailN : delFN e.id = true) :
    sweepSolo now delF updF (sc :: rest)
        { solo_certs := sc :: rest, certifications := certs }
      = ({ solo_certs := sc :: rest, certifications := certs }, false) ∧
    sweepSolo now delF2 updF2 (sc2 :: rest2)
        { solo_certs := sc2 :: rest2, certifications := certs2 }
      = ({ solo_certs :=
             (sc2 :: rest2).filter (fun x => ¬ x.id = sc2.id),
           certifications := certs2 }, false) ∧
    sweepNoShow now addSixMonths delFN (e :: restN) stN = (stN, false) := by
  refine ⟨?_, ?_, ?_⟩
  · simp [sweepSolo, hexp, hfail]
  · simp only [sweepSolo, if_pos hexp2, hdel2, Bool.false_eq_true, if_false,
      hcerts2]
    simp [updateCertsLoop, hu, hupd2]
  · simp [sweepNoShow, hadd, hexpN, hfailN]

/-- Witness for C10 at a concrete store state. -/
theorem C10_witness :
    sweepSolo 10 (fun _ => true) (fun _ => false) [c10solo1, c10solo2]
        { solo_certs := [c10solo1, c10solo2], certifications := [c10cert] }
      = ({ solo_certs := [c10solo1, c10solo2],
           certifications := [c10cert] }, false) ∧
    sweepSolo 10 (fun _ => false) (fun _ => true) [c10solo1, c10solo2]
        { solo_certs := [c10solo1, c10solo2], certifications := [c10cert] }
      = ({ solo_certs :=
             ([c10solo1, c10solo2]).filter (fun x => ¬ x.id = c10solo1.id),
           certifications := [c10cert] }, false) ∧
    sweepNoShow 10 (fun t => some (t + 6)) (fun _ => true) [c10noshow]
        [c10noshow] = ([c10noshow], false) :=
  C10_sweeps_abort_on_store_failure 10 (fun _ => false) (fun _ => true)
    c10solo1 [c10solo2] [c10cert] (by decide) (by decide)
    (fun _ => false) (fun _ => true) c10solo1 [c10solo2] [c10cert] c10cert []
    (by decide) (by decide) (by decide) (by decide) (by decide)
    (fun t => some (t + 6)) (fun _ => true) c10noshow [] [c10noshow]
    6 (by decide) (by decide) (by decide)

/-- With no store failures, the inner certification loop is the fold
of per-row training updates over the fetched rows. -/
theorem updateCertsLoop_ok (L : List Certification) :
    ∀ T : List Certification,
    updateCertsLoop noFailures T L =
      (L.foldl (fun T2 u =>
        if u.value = "solo" then applyCertificationTraining u T2 else T2) T,
       true) := by
  induction L with
  | nil => intro T; rfl
  | cons u rest ih =>
    intro T
    by_cases h : u.value = "solo"
    · simp only [updateCertsLoop, noFailures, Bool.false_eq_true, if_false,
        if_pos h, List.foldl_cons, ih]
    · simp only [updateCertsLoop, if_neg h, List.foldl_cons, ih]

/-- The fold of per-row training updates over a duplicate-free row
list drawn verbatim from the table, covering every solo-valued row of
the given cid, equals one table-wide map. -/
theorem trainFold_eq_map (cid : Nat) :
    ∀ (L T : List Certification),
    (∀ u ∈ L, u.cid = cid) →
    ((L.map (fun u => u.id)).Nodup) →
    (∀ u ∈ L, ∀ c ∈ T, c.id = u.id → c = u) →
    (∀ c ∈ T, c.cid = cid → c.value = "solo" → ∃ u ∈ L, u.id = c.id) →
    L.foldl (fun T2 u =>
        if u.value = "solo" then applyCertificationTraining u T2 else T2) T
      = T.map (fun c =>
          if c.cid = cid ∧ c.value = "solo" then { c with value := "training" }
          else c) := by
  intro L
  induction L with
  | nil =>
    intro T _ _ _ hcov
    simp only [List.foldl_nil]
    have : ∀ c ∈ T, (if c.cid = cid ∧ c.value = "solo"
        then { c with value := "training" } else c) = c := by
      intro c hc
      rw [if_neg]
      rintro ⟨h1, h2⟩
      obtain ⟨u, hu, _⟩ := hcov c hc h1 h2
      exact absurd hu (List.not_mem_nil u)
    rw [List.map_congr_left this]
    simp
  | cons u rest ih =>
    intro T hcid hnd hverb hcov
    simp only [List.foldl_cons]
    have hucid : u.cid = cid := hcid u (List.mem_cons_self u rest)
    by_cases hsolo : u.value = "solo"
    · rw [if_pos hsolo]
      have hTeq : applyCertificationTraining u T
          = T.map (fun c => if c.id = u.id then { c with value := "training" }
              else c) := by
        unfold applyCertificationTraining
        apply List.map_congr_left
        intro c hc
        by_cases hid : c.id = u.id
        · have hcu : c = u := hverb u (List.mem_cons_self u rest) c hc hid
          subst hcu
          simp only [if_pos hid]
        · simp only [if_neg hid]
      rw [hTeq]
      have hnd' : ((rest.map (fun v => v.id)).Nodup) := (List.nodup_cons.mp hnd).2
      have huid : u.id ∉ rest.map (fun v => v.id) := (List.nodup_cons.mp hnd).1
      rw [ih (T.map (fun c => if c.id = u.id then { c with value := "training" }
            else c))
          (fun v hv => hcid v (List.mem_cons_of_mem u hv)) hnd'
          ?_ ?_]
      · rw [List.map_map]
        apply List.map_congr_left
        intro c hc
        simp only [Function.comp]
        by_cases hid : c.id = u.id
        · have hcu : c = u := hverb u (List.mem_cons_self u rest) c hc hid
          have h1 : c.cid = cid := by rw [hcu]; exact hucid
          have h2 : c.value = "solo" := by rw [hcu]; exact hsolo
          simp only [if_pos hid, if_pos (And.intro h1 h2)]
          rw [if_neg]
          rintro ⟨_, hv⟩
          exact absurd hv (by decide)
        · simp only [if_neg hid]
      · intro v hv c' hc'
        obtain ⟨c0, hc0, hc0eq⟩ := List.mem_map.mp hc'
        by_cases hid : c0.id = u.id
        · rw [if_pos hid] at hc0eq
          intro hvid
          exfalso
          apply huid
          have : c'.id = c0.id := by rw [← hc0eq]
          rw [List.mem_map]
          exact ⟨v, hv, by rw [← hvid, this, hid]⟩
        · rw [if_neg hid] at hc0eq
          subst hc0eq
          exact hverb v (List.mem_cons_of_mem u hv) c0 hc0
      · intro c' hc' hccid hcsolo
        obtain ⟨c0, hc0, hc0eq⟩ := List.mem_map.mp hc'
        by_cases hid : c0.id = u.id
        · rw [if_pos hid] at hc0eq
          exfalso
          rw [← hc0eq] at hcsolo
          simp at hcsolo
        · rw [if_neg hid] at hc0eq
          subst hc0eq
          obtain ⟨w, hw, hwid⟩ := hcov c0 hc0 hccid hcsolo
          rcases List.mem_cons.mp hw with hwu | hwrest
          · exfalso
            apply hid
            rw [← hwid, hwu]
          · exact ⟨w, hwrest, hwid⟩
    · rw [if_neg hsolo]
      apply ih T (fun v hv => hcid v (List.mem_cons_of_mem u hv))
        (List.nodup_cons.mp hnd).2
        (fun v hv c hc => hverb v (List.mem_cons_of_mem u hv) c hc)
      intro c hc hccid hcsolo
      obtain ⟨w, hw, hwid⟩ := hcov c hc hccid hcsolo
      rcases List.mem_cons.mp hw with hwu | hwrest
      · exfalso
        have hcw : c = w :=
          hverb w (hwu ▸ List.mem_cons_self u rest) c hc hwid.symm
        apply hsolo
        rw [← hwu, ← hcw]
        exact hcsolo
      · exact ⟨w, hwrest, hwid⟩

/-- The inner loop of one expired solo cert, run on the rows the code
fetches (the cid's rows of the current table), rewrites exactly the
cid's solo-valued rows to training. -/
theorem updateCertsLoop_filter_eq (T : List Certification) (cid : Nat)
    (hids : (T.map (fun c => c.id)).Nodup) :
    updateCertsLoop noFailures T (T.filter (fun c => c.cid = cid))
      = (T.map (fun c =>
          if c.cid = cid ∧ c.value = "solo" then { c with value := "training" }
          else c), true) := by
  rw [updateCertsLoop_ok]
  rw [trainFold_eq_map cid (T.filter (fun c => c.cid = cid)) T]
  · intro u hu
    have := List.of_mem_filter hu
    simpa using this
  · have hsub : ((T.filter (fun c => c.cid = cid)).map (fun c => c.id)).Sublist
        (T.map (fun c => c.id)) := (List.filter_sublist T).map _
    exact hids.sublist hsub
  · intro u hu c hc hid
    exact List.inj_on_of_nodup_map hids hc (List.mem_of_mem_filter hu) hid
  · intro c hc hccid _
    exact ⟨c, List.mem_filter.mpr ⟨hc, by simpa using hccid⟩, rfl⟩

/-- One failure-free solo-cert sweep tick, characterized over the
fetched rows: the expired fetched rows are deleted, and every
certification row of a controller with an expired fetched solo cert
whose value is solo is set to training. -/
theorem sweepSolo_ok (now : Int) :
    ∀ (fetch : List SoloCert) (st : SweepSt),
    ((st.certifications.map (fun c => c.id)).Nodup) →
    sweepSolo now noFailures noFailures fetch st
      = ({ solo_certs := st.solo_certs.filter
             (fun x => ! (expiredSoloIds now fetch).contains x.id),
           certifications := st.certifications.map (fun c =>
             if hasExpiredSolo now fetch c.cid ∧ c.value = "solo"
             then { c with value := "training" } else c) }, true) := by
  intro fetch
  induction fetch with
  | nil =>
    intro st _
    have h1 : st.solo_certs.filter
        (fun x => ! (expiredSoloIds now []).contains x.id) = st.solo_certs := by
      rw [List.filter_eq_self]
      intro a _
      rfl
    have h2 : st.certifications.map (fun c =>
        if hasExpiredSolo now [] c.cid ∧ c.value = "solo"
        then { c with value := "training" } else c) = st.certifications := by
      have : ∀ c ∈ st.certifications,
          (if hasExpiredSolo now [] c.cid ∧ c.value = "solo"
           then { c with value := "training" } else c) = c := by
        intro c _
        rw [if_neg]
        rintro ⟨h, _⟩
        simp [hasExpiredSolo] at h
      rw [List.map_congr_left this]
      simp
    rw [h1, h2]
    rfl
  | cons sc rest ih =>
    intro st hids
    by_cases hexp : sc.expiration_date < now
    · have hloop := updateCertsLoop_filter_eq st.certifications sc.cid hids
      have hids' : (((st.certifications.map (fun c =>
          if c.cid = sc.cid ∧ c.value = "solo" then { c with value := "training" }
          else c)).map (fun c => c.id)).Nodup) := by
        rw [List.map_map]
        have : ∀ c ∈ st.certifications, ((fun c => c.id) ∘ (fun c =>
            if c.cid = sc.cid ∧ c.value = "solo" then { c with value := "training" }
            else c)) c = c.id := by
          intro c _
          simp only [Function.comp]
          split <;> rfl
        rw [List.map_congr_left this]
        exact hids
      have hrec := ih (SweepSt.mk
          (st.solo_certs.filter (fun x => ¬ x.id = sc.id))
          (st.certifications.map (fun c =>
            if c.cid = sc.cid ∧ c.value = "solo" then { c with value := "training" }
            else c))) hids'
      simp only [sweepSolo, if_pos hexp, noFailures, Bool.false_eq_true,
        if_false]
      rw [hloop]
      dsimp only
      rw [hrec]
      have hsolo_eq : (st.solo_certs.filter (fun x => ¬ x.id = sc.id)).filter
            (fun x => ! (expiredSoloIds now rest).contains x.id)
          = st.solo_certs.filter
            (fun x => ! (expiredSoloIds now (sc :: rest)).contains x.id) := by
        rw [List.filter_filter]
        apply List.filter_congr
        intro x _
        have hcons : expiredSoloIds now (sc :: rest)
            = sc.id :: expiredSoloIds now rest := by
          simp [expiredSoloIds, hexp]
        rw [hcons]
        by_cases hx : x.id = sc.id
        · simp [hx]
        · simp [hx, Ne.symm]
      have hcert_eq : (st.certifications.map (fun c =>
            if c.cid = sc.cid ∧ c.value = "solo" then { c with value := "training" }
            else c)).map (fun c =>
            if hasExpiredSolo now rest c.cid ∧ c.value = "solo"
            then { c with value := "training" } else c)
          = st.certifications.map (fun c =>
            if hasExpiredSolo now (sc :: rest) c.cid ∧ c.value = "solo"
            then { c with value := "training" } else c) := by
        rw [List.map_map]
        apply List.map_congr_left
        intro c _
        simp only [Function.comp]
        by_cases hval : c.value = "solo"
        · by_cases hcc : c.cid = sc.cid
          · simp [hcc, hval, hasExpiredSolo, hexp]
          · have hcc' : ¬ sc.cid = c.cid := fun h => hcc h.symm
            by_cases hrest : hasExpiredSolo now rest c.cid
            · simp [hcc, hcc', hval, hrest, hasExpiredSolo, hexp]
            · simp [hcc, hcc', hval, hasExpiredSolo, hexp]
        · simp [hval, hasExpiredSolo]
      dsimp only at *
      rw [hsolo_eq, hcert_eq]
    · have hrec := ih st hids
      simp only [sweepSolo, if_neg hexp]
      rw [hrec]
      have h1 : expiredSoloIds now (sc :: rest) = expiredSoloIds now rest := by
        simp [expiredSoloIds, hexp]
      have h2 : st.certifications.map (fun c =>
            if hasExpiredSolo now rest c.cid ∧ c.value = "solo"
            then { c with value := "training" } else c)
          = st.certifications.map (fun c =>
            if hasExpiredSolo now (sc :: rest) c.cid ∧ c.value = "solo"
            then { c with value := "training" } else c) := by
        apply List.map_congr_left
        intro c _
        have : hasExpiredSolo now (sc :: rest) c.cid
            = hasExpiredSolo now rest c.cid := by
          simp [hasExpiredSolo, hexp]
        rw [this]
      rw [h1, h2]

/-- C3 counterexample: at a store holding one expired solo cert for
position "A" and two solo-valued certification rows of the same
controller (positions "A" and "B"), one failure-free sweep tick flips
BOTH rows to training — the code never consults the solo cert's
position, so the claim's "certification rows for other positions of
the same controller are not modified" fails on row "B". -/
theorem C3_counterexample :
    (sweepSolo 6 noFailures noFailures [c3solo]
        { solo_certs := [c3solo],
          certifications := [c3certA, c3certB] }).1.certifications
      = [{ c3certA with value := "training" },
         { c3certB with value := "training" }] ∧
    c3certB.name ≠ c3solo.position ∧ c3certB.value = "solo" := by
  decide

/-- C3 as amended: one failure-free sweep tick deletes every expired
solo cert fetched at tick start, and rewrites to "training" every
certification row — matched by controller (cid), not by the solo
cert's position — whose value is "solo" and whose controller had an
expired solo cert, preserving `changed_on` and `set_by`;
certification rows whose value is not "solo", and rows of controllers
without an expired solo cert, are untouched. -/
theorem C3_amended_solo_expiration_cascade (now : Int) (st : SweepSt)
    (hcertIds : ((st.certifications.map (fun c => c.id)).Nodup))
    (hsoloIds : ((st.solo_certs.map (fun sc => sc.id)).Nodup)) :
    sweepSolo now noFailures noFailures st.solo_certs st
      = ({ solo_certs :=
             st.solo_certs.filter (fun sc => ¬ sc.expiration_date < now),
           certifications := st.certifications.map (fun c =>
             if hasExpiredSolo now st.solo_certs c.cid ∧ c.value = "solo"
             then { c with value := "training" } else c) }, true) := by
  rw [sweepSolo_ok now st.solo_certs st hcertIds]
  have hfil : st.solo_certs.filter
        (fun x => ! (expiredSoloIds now st.solo_certs).contains x.id)
      = st.solo_certs.filter (fun sc => ¬ sc.expiration_date < now) := by
    apply List.filter_congr
    intro x hx
    by_cases hexp : x.expiration_date < now
    · have hmem : x.id ∈ expiredSoloIds now st.solo_certs := by
        apply List.mem_map.mpr
        exact ⟨x, List.mem_filter.mpr ⟨hx, by simpa using hexp⟩, rfl⟩
      simp [hexp, hmem]
    · have hnmem : x.id ∉ expiredSoloIds now st.solo_certs := by
        intro hmem
        obtain ⟨y, hy, hyid⟩ := List.mem_map.mp hmem
        have hyx : y = x := List.inj_on_of_nodup_map hsoloIds
          (List.mem_of_mem_filter hy) hx hyid
        have hyexp := List.of_mem_filter hy
        rw [hyx] at hyexp
        simp at hyexp
        exact hexp hyexp
      simp [hexp, hnmem]
  rw [hfil]

/-- Witness for the amended C3 at the concrete fixture store. -/
theorem C3_amended_witness :
    sweepSolo 6 noFailures noFailures [c3solo]
        { solo_certs := [c3solo], certifications := [c3certA, c3certB] }
      = ({ solo_certs :=
             [c3solo].filter (fun sc => ¬ sc.expiration_date < 6),
           certifications := [c3certA, c3certB].map (fun c =>
             if hasExpiredSolo 6 [c3solo] c.cid ∧ c.value = "solo"
             then { c with value := "training" } else c) }, true) :=
  C3_amended_solo_expiration_cascade 6
    { solo_certs := [c3solo], certifications := [c3certA, c3certB] }
    (by decide) (by decide)

/-- C8 counterexample: a single session whose duration field fails to
parse kills the whole run — both the online update and the full
true-up return no final state (the `.unwrap()` panic), so the other
controller (cid 2, whose data is well-formed) is never processed.
The claimed isolation to the one session fails. -/
theorem C8_counterexample :
    updateOnlineActivity allAir 600 [1, 2] "2025-01-01" sessionsOf8 []
        [online1, online2] = none ∧
    trueUpAllActivity allAir false (fun _ => false)
        (fun cid => Except.ok (sessionsOf8 cid)) [] [1, 2] = none ∧
    goodSession.minutes_on_callsign.isSome = true := by
  decide

/-- C8 as amended: only the `Result`-carried parse failures are
isolated — a controller whose logon timestamp fails the rfc3339 parse
is skipped with a logged error and the run continues with the rest —
while a non-numeric duration field in any processed session is
unwrapped, panics, and aborts the entire run with no final state. -/
theorem C8_parse_error_isolation_amended
    (inAir : String → Bool) (now : Int) (onRoster : List Nat)
    (startOfMonth : String) (sessionsOf : Nat → List Session)
    (st : List ActivityRow) (c : OnlineController)
    (rest : List OnlineController) (q : ℚ)
    (hmem : onRoster.contains c.cid = true)
    (hair : inAir c.callsign = true)
    (hlog : c.logon_time = none)
    (hsum : sumAirspaceSeconds inAir (sessionsOf c.cid) = some q)
    (c2 : OnlineController) (rest2 : List OnlineController)
    (hmem2 : onRoster.contains c2.cid = true)
    (hair2 : inAir c2.callsign = true)
    (hsum2 : sumAirspaceSeconds inAir (sessionsOf c2.cid) = none) :
    updateOnlineActivity inAir now onRoster startOfMonth sessionsOf st
        (c :: rest)
      = updateOnlineActivity inAir now onRoster startOfMonth sessionsOf st rest
    ∧ updateOnlineActivity inAir now onRoster startOfMonth sessionsOf st
        (c2 :: rest2)
      = none := by
  constructor
  · simp only [updateOnlineActivity, hmem, hair, Bool.not_true,
      Bool.false_eq_true, if_false, updateSingleActivity, hsum, hlog]
  · simp only [updateOnlineActivity, hmem2, hair2, Bool.not_true,
      Bool.false_eq_true, if_false, updateSingleActivity, hsum2]

/-- Witness for the amended C8 at the concrete fixtures. -/
theorem C8_amended_witness :
    updateOnlineActivity allAir 600 [1, 2] "2025-01-01" sessionsOf8 []
        [online3]
      = updateOnlineActivity allAir 600 [1, 2] "2025-01-01" sessionsOf8 [] []
    ∧ updateOnlineActivity allAir 600 [1, 2] "2025-01-01" sessionsOf8 []
        [online1]
      = none :=
  C8_parse_error_isolation_amended allAir 600 [1, 2] "2025-01-01"
    sessionsOf8 [] online3 [] ((30 : ℚ) * 60 + 0) (by decide) (by decide)
    (by decide) rfl online1 [] (by decide) (by decide) rfl

/-- Lookup after a month-bucket upsert: the touched key accumulates,
every other key is untouched. -/
theorem lookupQ_upsertQ (k v : _) (k' : String) :
    ∀ acc : List (String × ℚ),
    lookupQ (upsertQ acc k v) k'
      = if k' = k then
          (match lookupQ acc k with
           | some a => some (a + v)
           | none => some v)
        else lookupQ acc k' := by
  intro acc
  induction acc with
  | nil =>
    by_cases hk : k' = k
    · subst hk
      simp [upsertQ, lookupQ]
    · have hk2 : ¬ k = k' := fun h => hk h.symm
      simp [upsertQ, lookupQ, hk, hk2]
  | cons p rest ih =>
    obtain ⟨k0, v0⟩ := p
    by_cases h0 : k0 = k
    · subst h0
      by_cases hk : k' = k0
      · subst hk
        simp [upsertQ, lookupQ]
      · have hk2 : ¬ k0 = k' := fun h => hk h.symm
        simp [upsertQ, lookupQ, hk, hk2]
    · by_cases hk : k' = k0
      · subst hk
        have h02 : ¬ k = k' := fun h => h0 h.symm
        simp [upsertQ, lookupQ, h0, h02]
      · have hk2 : ¬ k0 = k' := fun h => hk h.symm
        simp only [upsertQ, if_neg h0, lookupQ, if_neg hk2]
        exact ih

/-- Keys after a month-bucket upsert: unchanged when the month was
present, the month appended otherwise. -/
theorem keys_upsertQ (k : String) (v : ℚ) :
    ∀ acc : List (String × ℚ),
    (upsertQ acc k v).map Prod.fst
      = if k ∈ acc.map Prod.fst then acc.map Prod.fst
        else acc.map Prod.fst ++ [k] := by
  intro acc
  induction acc with
  | nil => simp [upsertQ]
  | cons p rest ih =>
    obtain ⟨k0, v0⟩ := p
    by_cases h0 : k0 = k
    · subst h0
      simp [upsertQ]
    · have h02 : ¬ k = k0 := fun h => h0 h.symm
      simp only [upsertQ, if_neg h0, List.map_cons, ih, List.mem_cons, h02,
        false_or]
      by_cases hmem : k ∈ rest.map Prod.fst
      · simp [hmem]
      · simp [hmem]

/-- A month-bucket upsert keeps the key list duplicate-free. -/
theorem nodupKeys_upsertQ (k : String) (v : ℚ) (acc : List (String × ℚ))
    (hnd : (acc.map Prod.fst).Nodup) :
    ((upsertQ acc k v).map Prod.fst).Nodup := by
  rw [keys_upsertQ]
  by_cases hmem : k ∈ acc.map Prod.fst
  · rw [if_pos hmem]; exact hnd
  · rw [if_neg hmem]
    simp [List.nodup_append, hnd, hmem]

/-- Membership in a duplicate-free month map is lookup. -/
theorem mem_iff_lookupQ (v : ℚ) :
    ∀ (l : List (String × ℚ)) (k : String), (l.map Prod.fst).Nodup →
    ((k, v) ∈ l ↔ lookupQ l k = some v) := by
  intro l
  induction l with
  | nil => intro k _; simp [lookupQ]
  | cons p rest ih =>
    obtain ⟨k0, v0⟩ := p
    intro k hnd
    rw [List.map_cons, List.nodup_cons] at hnd
    by_cases hk : k0 = k
    · subst hk
      have hlook : lookupQ ((k0, v0) :: rest) k0 = some v0 := by
        simp [lookupQ]
      rw [hlook]
      constructor
      · intro hmem
        rcases List.mem_cons.mp hmem with h1 | h2
        · have hv : v = v0 := congrArg Prod.snd h1
          rw [hv]
        · exact absurd (List.mem_map.mpr ⟨(k0, v), h2, rfl⟩) hnd.1
      · intro hl
        have hv : v0 = v := Option.some.inj hl
        subst hv
        exact List.mem_cons_self _ _
    · have hlook : lookupQ ((k0, v0) :: rest) k = lookupQ rest k := by
        simp [lookupQ, hk]
      rw [hlook, ← ih k hnd.2]
      constructor
      · intro hmem
        rcases List.mem_cons.mp hmem with h1 | h2
        · exact absurd (congrArg Prod.fst h1) (fun h => hk h.symm)
        · exact h2
      · exact fun h => List.mem_cons_of_mem _ h

/-- The key list of the computed buckets is duplicate-free, starting
from a duplicate-free accumulator. -/
theorem aggAux_nodupKeys (inAir : String → Bool) :
    ∀ (l : List Session) (acc out : List (String × ℚ)),
    (acc.map Prod.fst).Nodup → aggAux inAir acc l = some out →
    (out.map Prod.fst).Nodup := by
  intro l
  induction l with
  | nil =>
    intro acc out hnd h
    simp only [aggAux, Option.some.injEq] at h
    rw [← h]
    exact hnd
  | cons s rest ih =>
    intro acc out hnd h
    by_cases hair : inAir s.callsign
    · simp only [aggAux, if_pos hair] at h
      by_cases hlen : s.start.length < 7
      · rw [if_pos hlen] at h; exact absurd h (by simp)
      · rw [if_neg hlen] at h
        cases hmin : s.minutes_on_callsign with
        | none => rw [hmin] at h; exact absurd h (by simp)
        | some mins =>
          rw [hmin] at h
          exact ih _ out (nodupKeys_upsertQ _ _ acc hnd) h
    · simp only [aggAux, if_neg hair] at h
      exact ih acc out hnd h

/-- Lookup characterization of the month-bucket computation: under
success, each month's accumulated seconds are the seconds of the
in-airspace sessions of that month, added to whatever the accumulator
already held. -/
theorem aggAux_lookup (inAir : String → Bool) :
    ∀ (l : List Session) (acc out : List (String × ℚ)),
    aggAux inAir acc l = some out →
    ∀ k, lookupQ out k
      = match lookupQ acc k with
        | some a => some (a + bucketSeconds inAir k l)
        | none =>
          if l.filter (inBucket inAir k) = [] then none
          else some (bucketSeconds inAir k l) := by
  intro l
  induction l with
  | nil =>
    intro acc out h k
    simp only [aggAux, Option.some.injEq] at h
    subst h
    cases hl : lookupQ acc k with
    | some a => simp [hl, bucketSeconds]
    | none => simp [hl]
  | cons s rest ih =>
    intro acc out h k
    by_cases hair : inAir s.callsign
    · simp only [aggAux, if_pos hair] at h
      by_cases hlen : s.start.length < 7
      · rw [if_pos hlen] at h; exact absurd h (by simp)
      · rw [if_neg hlen] at h
        cases hmin : s.minutes_on_callsign with
        | none => rw [hmin] at h; exact absurd h (by simp)
        | some mins =>
          rw [hmin] at h
          have hrec := ih _ out h k
          rw [lookupQ_upsertQ] at hrec
          by_cases hk : k = s.start.take 7
          · have hbucket : inBucket inAir k s = true := by
              simp [inBucket, hair, hk]
            have hfil : (s :: rest).filter (inBucket inAir k)
                = s :: rest.filter (inBucket inAir k) := by
              rw [List.filter_cons, if_pos (by simp [hbucket])]
            have hsec : bucketSeconds inAir k (s :: rest)
                = mins * 60 + bucketSeconds inAir k rest := by
              simp only [bucketSeconds, hfil, List.map_cons, List.sum_cons,
                hmin, Option.getD_some]
            rw [if_pos hk] at hrec
            rw [hrec, ← hk]
            cases hl : lookupQ acc k with
            | some a => simp [hl, hsec, add_assoc]
            | none => simp [hl, hsec, hfil]
          · have hbucket : inBucket inAir k s = false := by
              simp only [inBucket, hair, Bool.true_and]
              exact beq_eq_false_iff_ne.mpr (fun h2 => hk h2.symm)
            have hfil : (s :: rest).filter (inBucket inAir k)
                = rest.filter (inBucket inAir k) := by
              rw [List.filter_cons, if_neg (by simp [hbucket])]
            have hsec : bucketSeconds inAir k (s :: rest)
                = bucketSeconds inAir k rest := by
              simp only [bucketSeconds, hfil]
            rw [if_neg hk] at hrec
            rw [hrec, hsec, hfil]
    · simp only [aggAux, if_neg hair] at h
      have hrec := ih acc out h k
      have hbucket : inBucket inAir k s = false := by
        simp [inBucket, hair]
      have hfil : (s :: rest).filter (inBucket inAir k)
          = rest.filter (inBucket inAir k) := by
        rw [List.filter_cons, if_neg (by simp [hbucket])]
      have hsec : bucketSeconds inAir k (s :: rest)
          = bucketSeconds inAir k rest := by
        simp only [bucketSeconds, hfil]
      rw [hrec, hsec, hfil]

/-- C5: after a successful full activity true-up for a controller, the
activity rows stored for that controller are exactly the rows built
from the freshly computed buckets (months are duplicate-free; each
bucket is present iff some in-airspace session falls in it, and its
seconds are that bucket's summed session seconds), every pre-existing
row of that controller is gone, every other controller's rows are
untouched — and a delete or insert failure inside the per-controller
transaction rolls everything back, leaving the table as it was. -/
theorem C5_activity_full_sync_replace_all
    (inAir : String → Bool) (st : List ActivityRow) (cid : Nat)
    (sessions : List Session) (buckets : List (String × ℚ))
    (hagg : aggSessions inAir sessions = some buckets)
    (delF2 : Bool) (insF2 : String → Bool)
    (hfail : delF2 = true ∨ buckets.any (fun b => insF2 b.1) = true) :
    trueUpSingle inAir false (fun _ => false) st cid (Except.ok sessions)
      = some ((st.filter (fun r => ¬ r.cid = cid)) ++ bucketRows cid buckets,
              true)
    ∧ ((st.filter (fun r => ¬ r.cid = cid)) ++ bucketRows cid buckets).filter
        (fun r => r.cid = cid) = bucketRows cid buckets
    ∧ ((st.filter (fun r => ¬ r.cid = cid)) ++ bucketRows cid buckets).filter
        (fun r => ¬ r.cid = cid) = st.filter (fun r => ¬ r.cid = cid)
    ∧ ((buckets.map Prod.fst).Nodup)
    ∧ (∀ k v, (k, v) ∈ buckets ↔
        (¬ sessions.filter (inBucket inAir k) = [] ∧
         v = bucketSeconds inAir k sessions))
    ∧ trueUpSingle inAir delF2 insF2 st cid (Except.ok sessions)
      = some (st, false) := by
  have hnd : (buckets.map Prod.fst).Nodup :=
    aggAux_nodupKeys inAir sessions [] buckets (by simp) hagg
  have hlook := aggAux_lookup inAir sessions [] buckets hagg
  refine ⟨?_, ?_, ?_, hnd, ?_, ?_⟩
  · simp [trueUpSingle, hagg]
  · rw [List.filter_append]
    have h1 : (st.filter (fun r => ¬ r.cid = cid)).filter
        (fun r => r.cid = cid) = [] := by
      rw [List.filter_eq_nil_iff]
      intro a ha
      have := List.of_mem_filter ha
      simp only [decide_not] at this
      simp [Bool.not_eq_true', decide_eq_false_iff_not] at this ⊢
      exact this
    have h2 : (bucketRows cid buckets).filter (fun r => r.cid = cid)
        = bucketRows cid buckets := by
      rw [List.filter_eq_self]
      intro a ha
      obtain ⟨b, _, hb⟩ := List.mem_map.mp ha
      rw [← hb]
      simp
    rw [h1, h2, List.nil_append]
  · rw [List.filter_append]
    have h1 : (st.filter (fun r => ¬ r.cid = cid)).filter
        (fun r => ¬ r.cid = cid) = st.filter (fun r => ¬ r.cid = cid) := by
      rw [List.filter_eq_self]
      intro a ha
      exact (List.mem_filter.mp ha).2
    have h2 : (bucketRows cid buckets).filter (fun r => ¬ r.cid = cid)
        = [] := by
      rw [List.filter_eq_nil_iff]
      intro a ha
      obtain ⟨b, _, hb⟩ := List.mem_map.mp ha
      rw [← hb]
      simp
    rw [h1, h2, List.append_nil]
  · intro k v
    rw [mem_iff_lookupQ v buckets k hnd, hlook k]
    simp only [lookupQ]
    by_cases hfil : sessions.filter (inBucket inAir k) = []
    · simp [hfil]
    · simp only [hfil, if_false, Option.some.injEq]
      constructor
      · intro h
        exact ⟨not_false, h.symm⟩
      · intro h
        exact h.2.symm
  · rcases hfail with hd | hins
    · subst hd
      simp [trueUpSingle, hagg]
    · by_cases hd : delF2 = true
      · subst hd
        simp [trueUpSingle, hagg]
      · rw [Bool.not_eq_true] at hd
        subst hd
        simp [trueUpSingle, hagg, hins]

/-- Witness for C5: a true-up for controller 2 over one in-airspace
session replaces the stale month row, and the same run with a failing
delete leaves the table untouched. -/
theorem C5_witness :
    trueUpSingle allAir false (fun _ => false) [oldRow] 2
        (Except.ok [goodSession])
      = some ((([oldRow] : List ActivityRow).filter (fun r => ¬ r.cid = 2))
          ++ bucketRows 2 [("2025-01", (30 : ℚ) * 60)], true)
    ∧ trueUpSingle allAir true (fun _ => false) [oldRow] 2
        (Except.ok [goodSession])
      = some ([oldRow], false) :=
  ⟨(C5_activity_full_sync_replace_all allAir [oldRow] 2 [goodSession]
      [("2025-01", (30 : ℚ) * 60)] rfl true (fun _ => false)
      (Or.inl rfl)).1,
   (C5_activity_full_sync_replace_all allAir [oldRow] 2 [goodSession]
      [("2025-01", (30 : ℚ) * 60)] rfl true (fun _ => false)
      (Or.inl rfl)).2.2.2.2.2⟩

/-- Splitting on commas always yields at least one piece. -/
theorem splitCommaL_ne_nil (l : List Char) : splitCommaL l ≠ [] := by
  induction l with
  | nil => simp [splitCommaL]
  | cons c rest ih =>
    by_cases hc : c = ','
    · simp [splitCommaL, hc]
    · simp only [splitCommaL, if_neg hc]
      cases h : splitCommaL rest with
      | nil => simp
      | cons a t => simp

/-- Pieces produced by a comma split contain no comma. -/
theorem no_comma_mem_splitCommaL (l : List Char) :
    ∀ p ∈ splitCommaL l, ',' ∉ p := by
  induction l with
  | nil =>
    intro p hp
    simp only [splitCommaL, List.mem_singleton] at hp
    subst hp
    simp
  | cons c rest ih =>
    intro p hp
    by_cases hc : c = ','
    · simp only [splitCommaL, if_pos hc] at hp
      rcases List.mem_cons.mp hp with h1 | h2
      · subst h1; simp
      · exact ih p h2
    · simp only [splitCommaL, if_neg hc] at hp
      cases hsplit : splitCommaL rest with
      | nil => exact absurd hsplit (splitCommaL_ne_nil rest)
      | cons a t =>
        rw [hsplit] at hp
        rcases List.mem_cons.mp hp with h1 | h2
        · subst h1
          intro hmem
          rcases List.mem_cons.mp hmem with h3 | h4
          · exact hc h3.symm
          · exact ih a (hsplit ▸ List.mem_cons_self a t) h4
        · exact ih p (hsplit ▸ List.mem_cons_of_mem a h2)

/-- A comma-free character list splits into itself. -/
theorem splitCommaL_no_comma (l : List Char) (h : ',' ∉ l) :
    splitCommaL l = [l] := by
  induction l with
  | nil => rfl
  | cons c rest ih =>
    have hc : ¬ c = ',' := fun hh => h (hh ▸ List.mem_cons_self c rest)
    simp only [splitCommaL, if_neg hc]
    rw [ih (fun hm => h (List.mem_cons_of_mem c hm))]

/-- Splitting past a comma-free head piece. -/
theorem splitCommaL_append (x : List Char) (r : List Char) (hx : ',' ∉ x) :
    splitCommaL (x ++ ',' :: r) = x :: splitCommaL r := by
  induction x with
  | nil => simp [splitCommaL]
  | cons c xs ih =>
    have hc : ¬ c = ',' := fun hh => hx (hh ▸ List.mem_cons_self c xs)
    simp only [List.cons_append, splitCommaL, if_neg hc, List.append_eq]
    rw [ih (fun hm => hx (List.mem_cons_of_mem c hm))]

/-- Split/join round trip at the character-list level: joining
comma-free pieces with commas and splitting again recovers them. -/
theorem splitCommaL_joinCommaL :
    ∀ L : List (List Char), L ≠ [] → (∀ p ∈ L, ',' ∉ p) →
    splitCommaL (joinCommaL L) = L := by
  intro L
  induction L with
  | nil => intro h _; exact absurd rfl h
  | cons x rest ih =>
    intro _ hp
    cases rest with
    | nil =>
      simp only [joinCommaL]
      exact splitCommaL_no_comma x (hp x (List.mem_cons_self x []))
    | cons y t =>
      simp only [joinCommaL]
      rw [splitCommaL_append x _ (hp x (List.mem_cons_self x (y :: t)))]
      rw [ih (by simp) (fun p hm => hp p (List.mem_cons_of_mem x hm))]

/-- Split/join round trip at the `String` level. -/
theorem splitComma_joinComma (L : List String) (h0 : L ≠ [])
    (h : ∀ p ∈ L, CommaFree p) : splitComma (joinComma L) = L := by
  unfold splitComma joinComma
  rw [show (String.mk (joinCommaL (L.map String.data))).data
      = joinCommaL (L.map String.data) from rfl]
  rw [splitCommaL_joinCommaL (L.map String.data) (by simpa using h0)
    (by intro p hp
        obtain ⟨q, hq, hqe⟩ := List.mem_map.mp hp
        rw [← hqe]
        exact h q hq)]
  have hmkdata : ∀ s : String, String.mk s.data = s := by
    intro s
    cases s
    rfl
  have hmk : ∀ M : List String,
      (M.map String.data).map (fun l => String.mk l) = M := by
    intro M
    induction M with
    | nil => rfl
    | cons a t iht => simp only [List.map_cons, iht, hmkdata]
  exact hmk L

/-- Every piece of a comma split is comma-free. -/
theorem mem_splitComma_commaFree (s : String) :
    ∀ p ∈ splitComma s, CommaFree p := by
  intro p hp
  obtain ⟨q, hq, hqe⟩ := List.mem_map.mp hp
  rw [← hqe]
  show ',' ∉ (String.mk q).data
  exact no_comma_mem_splitCommaL s.data q hq

/-- A comma split is never empty. -/
theorem splitComma_ne_nil (s : String) : splitComma s ≠ [] := by
  unfold splitComma
  intro h
  rw [List.map_eq_nil_iff] at h
  exact splitCommaL_ne_nil s.data h

/-- Every roles string denotes a nonempty set of pieces. -/
theorem rolesFinset_nonempty (s : String) : (rolesFinset s).Nonempty := by
  unfold rolesFinset
  obtain ⟨p, hp⟩ := List.exists_mem_of_ne_nil _ (splitComma_ne_nil s)
  exact ⟨p, List.mem_toFinset.mpr hp⟩

/-- Joining comma-free pieces denotes exactly their set. -/
theorem rolesFinset_joinComma (L : List String)
    (hcf : ∀ p ∈ L, CommaFree p) (h0 : L ≠ []) :
    rolesFinset (joinComma L) = L.toFinset := by
  unfold rolesFinset
  rw [splitComma_joinComma L h0 hcf]

/-- The externally-derived role codes are drawn from the fixed
comma-free vocabulary. -/
theorem extRoles_commaFree (m : RosterMember) :
    ∀ r ∈ extRoles m, CommaFree r := by
  intro r hr
  have hbase : ∀ x ∈ (m.roles.filter (fun rr => rr.facility = "ZDV")).filterMap
      (fun rr => if roles_to_match.contains rr.role then some rr.role
                 else none), CommaFree x := by
    intro x hx
    obtain ⟨rr, _, hrr⟩ := List.mem_filterMap.mp hx
    by_cases hcont : roles_to_match.contains rr.role
    · rw [if_pos hcont, Option.some.injEq] at hrr
      rw [← hrr]
      have hmem : rr.role ∈ roles_to_match := by simpa using hcont
      simp only [roles_to_match, List.mem_cons, List.not_mem_nil,
        or_false] at hmem
      rcases hmem with h | h | h | h
      · rw [h]; decide
      · rw [h]; decide
      · rw [h]; decide
      · rw [h]; decide
    · rw [if_neg hcont] at hrr
      exact absurd hrr (by simp)
  unfold extRoles at hr
  split at hr
  · rcases List.mem_append.mp hr with h1 | h2
    · exact hbase r h1
    · rw [List.mem_singleton.mp h2]
      decide
  · exact hbase r hr

/-- A merge outcome denotes exactly the union of the existing stored
set and the external role set, provided the external codes are
comma-free. -/
theorem rolesOutcome_rolesFinset (e : String) (ext : List String) (s : String)
    (hext : ∀ r ∈ ext, CommaFree r) (h : rolesOutcome e ext s) :
    rolesFinset s = rolesFinset e ∪ ext.toFinset := by
  obtain ⟨l, _, hset, hjoin⟩ := h
  have hl0 : l ≠ [] := by
    intro h0
    subst h0
    obtain ⟨p, hp⟩ := rolesFinset_nonempty e
    have : p ∈ (([] : List String)).toFinset := by
      rw [hset]
      exact Finset.mem_union_left _ hp
    simp at this
  have hcf : ∀ p ∈ l, CommaFree p := by
    intro p hp
    have hpu : p ∈ rolesFinset e ∪ ext.toFinset := by
      rw [← hset]
      exact List.mem_toFinset.mpr hp
    rcases Finset.mem_union.mp hpu with h1 | h2
    · exact mem_splitComma_commaFree e p (List.mem_toFinset.mp h1)
    · exact hext p (List.mem_toFinset.mp h2)
  rw [hjoin]
  unfold rolesFinset
  rw [splitComma_joinComma l hl0 hcf]
  exact hset

/-- Finding by cid through a cid-preserving row rewrite. -/
theorem find?_cid_map (l : List Controller) (f : Controller → Controller)
    (hf : ∀ c, (f c).cid = c.cid) (cid : Nat) :
    (l.map f).find? (fun c => c.cid = cid)
      = (l.find? (fun c => c.cid = cid)).map f := by
  induction l with
  | nil => rfl
  | cons c rest ih =>
    by_cases h : c.cid = cid
    · have h2 : (f c).cid = cid := by rw [hf c]; exact h
      rw [List.map_cons, List.find?_cons_of_pos _ (by simpa using h2),
        List.find?_cons_of_pos _ (by simpa using h)]
      rfl
    · have h2 : ¬ (f c).cid = cid := by rw [hf c]; exact h
      rw [List.map_cons, List.find?_cons_of_neg _ (by simpa using h2),
        List.find?_cons_of_neg _ (by simpa using h), ih]

/-- A found controller row has the searched cid. -/
theorem findController_cid (st : RosterSt) (cid : Nat) (c : Controller)
    (h : findController st cid = some c) : c.cid = cid := by
  unfold findController at h
  have := List.find?_some h
  simpa using this

/-- `upsertFields` and `newControllerFrom` keep/produce the member's
cid. -/
theorem upsertFields_cid (m : RosterMember) (c : Controller) (s : String) :
    (upsertFields m c s).cid = c.cid := rfl

/-- The upsert leaves rows of other cids untouched. -/
theorem findController_upsertMain_other (st : RosterSt) (m : RosterMember)
    (s : String) (cid : Nat) (h : ¬ cid = m.cid) :
    findController (upsertMain st m s) cid = findController st cid := by
  unfold upsertMain
  cases hfind : findController st m.cid with
  | some c0 =>
    show ((st.controllers.map fun c =>
        if c.cid = m.cid then upsertFields m c s else c).find?
        (fun c => c.cid = cid)) = findController st cid
    rw [find?_cid_map _ _ (fun c => by by_cases hc : c.cid = m.cid <;>
      simp [hc, upsertFields_cid]) cid]
    unfold findController
    cases hres : st.controllers.find? (fun c => c.cid = cid) with
    | none => rfl
    | some r =>
      have hr : r.cid = cid := by
        have := List.find?_some hres
        simpa using this
      rw [Option.map_some']
      rw [if_neg (by rw [hr]; exact h)]
  | none =>
    show ((st.controllers ++ [newControllerFrom m s]).find?
        (fun c => c.cid = cid)) = findController st cid
    rw [List.find?_append]
    unfold findController
    cases hres : st.controllers.find? (fun c => c.cid = cid) with
    | some r => rfl
    | none =>
      simp only [Option.none_or]
      have hnc : ¬ (decide ((newControllerFrom m s).cid = cid) = true) := by
        simp only [newControllerFrom, decide_eq_true_eq]
        exact fun hh => h hh.symm
      cases hp : decide ((newControllerFrom m s).cid = cid) with
      | false => simp [List.find?, hp]
      | true => exact absurd hp hnc

/-- The upsert rewrites the member's existing row to the upserted
fields. -/
theorem findController_upsertMain_of_some (st : RosterSt) (m : RosterMember)
    (s : String) (c : Controller) (hc : findController st m.cid = some c) :
    findController (upsertMain st m s) m.cid = some (upsertFields m c s) := by
  unfold upsertMain
  rw [hc]
  show ((st.controllers.map fun x =>
      if x.cid = m.cid then upsertFields m x s else x).find?
      (fun x => x.cid = m.cid)) = some (upsertFields m c s)
  rw [find?_cid_map _ _ (fun x => by by_cases hx : x.cid = m.cid <;>
    simp [hx, upsertFields_cid]) m.cid]
  unfold findController at hc
  rw [hc]
  rw [Option.map_some']
  rw [if_pos (findController_cid st m.cid c hc)]

/-- The upsert inserts a fresh row when the cid is new. -/
theorem findController_upsertMain_of_none (st : RosterSt) (m : RosterMember)
    (s : String) (hc : findController st m.cid = none) :
    findController (upsertMain st m s) m.cid
      = some (newControllerFrom m s) := by
  unfold upsertMain
  rw [hc]
  show ((st.controllers ++ [newControllerFrom m s]).find?
      (fun c => c.cid = m.cid)) = some (newControllerFrom m s)
  rw [List.find?_append]
  unfold findController at hc
  rw [hc]
  simp only [Option.none_or]
  rw [List.find?_cons_of_pos _ (by
    show decide ((newControllerFrom m s).cid = m.cid) = true
    simp [newControllerFrom])]

/-- Setting fresh initials leaves rows of other cids untouched. -/
theorem findController_setOIs_other
    (alloc : List String → String → String → String) (st : RosterSt)
    (m : RosterMember) (cid : Nat) (h : ¬ cid = m.cid) :
    findController (setOIs alloc st m) cid = findController st cid := by
  unfold setOIs findController
  rw [find?_cid_map _ _ (fun c => by by_cases hc : c.cid = m.cid <;>
    simp [hc]) cid]
  cases hres : st.controllers.find? (fun c => c.cid = cid) with
  | none => rfl
  | some r =>
    have hr : r.cid = cid := by
      have := List.find?_some hres
      simpa using this
    rw [Option.map_some']
    rw [if_neg (by rw [hr]; exact h)]

/-- Setting fresh initials rewrites exactly the member's row. -/
theorem findController_setOIs_self
    (alloc : List String → String → String → String) (st : RosterSt)
    (m : RosterMember) :
    findController (setOIs alloc st m) m.cid
      = (findController st m.cid).map (fun c =>
          { c with operating_initials := some (alloc (inUseOIs st) m.first_name m.last_name) }) := by
  unfold setOIs findController
  rw [find?_cid_map _ _ (fun c => by by_cases hc : c.cid = m.cid <;>
    simp [hc]) m.cid]
  cases hres : st.controllers.find? (fun c => c.cid = m.cid) with
  | none => rfl
  | some r =>
    have hr : r.cid = m.cid := by
      have := List.find?_some hres
      simpa using this
    rw [Option.map_some', Option.map_some']
    rw [if_pos hr]

/-- `update_controller_record`'s write pass leaves other cids
untouched. -/
theorem findController_applyUpsert_other
    (alloc : List String → String → String → String) (st : RosterSt)
    (m : RosterMember) (s : String) (cid : Nat) (h : ¬ cid = m.cid) :
    findController (applyUpsert alloc st m s) cid = findController st cid := by
  unfold applyUpsert
  dsimp only
  split
  · rw [findController_setOIs_other alloc _ m cid h,
      findController_upsertMain_other st m s cid h]
  · rw [findController_upsertMain_other st m s cid h]

/-- The write pass on an on-roster existing record: the row becomes
the upserted fields, with no initials reassignment. -/
theorem findController_applyUpsert_on
    (alloc : List String → String → String → String) (st : RosterSt)
    (m : RosterMember) (s : String) (c : Controller)
    (hc : findController st m.cid = some c) (hon : c.is_on_roster = true) :
    findController (applyUpsert alloc st m s) m.cid
      = some (upsertFields m c s) := by
  unfold applyUpsert
  rw [hc]
  dsimp only
  rw [hon]
  simp only [Bool.not_true, Bool.false_eq_true, if_false]
  exact findController_upsertMain_of_some st m s c hc

/-- The write pass on an off-roster existing record: the row becomes
the upserted fields plus freshly allocated operating initials, the
allocator seeing the initials in use after the upsert. -/
theorem findController_applyUpsert_off
    (alloc : List String → String → String → String) (st : RosterSt)
    (m : RosterMember) (s : String) (c : Controller)
    (hc : findController st m.cid = some c) (hoff : c.is_on_roster = false) :
    findController (applyUpsert alloc st m s) m.cid
      = some { upsertFields m c s with operating_initials := some (alloc (inUseOIs (upsertMain st m s)) m.first_name m.last_name) } := by
  unfold applyUpsert
  rw [hc]
  dsimp only
  rw [hoff]
  simp only [Bool.not_false, if_true]
  rw [findController_setOIs_self alloc (upsertMain st m s) m,
    findController_upsertMain_of_some st m s c hc]
  rw [Option.map_some']

/-- The write pass on a brand-new cid: a fresh row is inserted and
given freshly allocated operating initials. -/
theorem findController_applyUpsert_new
    (alloc : List String → String → String → String) (st : RosterSt)
    (m : RosterMember) (s : String)
    (hc : findController st m.cid = none) :
    findController (applyUpsert alloc st m s) m.cid
      = some { newControllerFrom m s with operating_initials := some (alloc (inUseOIs (upsertMain st m s)) m.first_name m.last_name) } := by
  unfold applyUpsert
  rw [hc]
  dsimp only
  rw [if_pos rfl]
  rw [findController_setOIs_self alloc (upsertMain st m s) m,
    findController_upsertMain_of_none st m s hc]
  rw [Option.map_some']

/-- Case analysis of one `update_controller_record` run. -/
theorem StepRel_elim (alloc : List String → String → String → String)
    (dateOk : String → Bool) (m : RosterMember) (st st' : RosterSt)
    (h : StepRel alloc dateOk m st st') :
    (dateOk m.facility_join = true ∧
      ((∃ c s, findController st m.cid = some c ∧
          rolesOutcome c.roles (extRoles m) s ∧
          st' = applyUpsert alloc st m s) ∨
       (findController st m.cid = none ∧
          st' = applyUpsert alloc st m (joinComma (extRoles m))))) ∨
    (dateOk m.facility_join = false ∧ st' = st) := by
  unfold StepRel at h
  by_cases hd : dateOk m.facility_join
  · rw [if_pos hd] at h
    cases hf : findController st m.cid with
    | some c =>
      rw [hf] at h
      obtain ⟨s, hs, hst⟩ := h
      exact Or.inl ⟨hd, Or.inl ⟨c, s, rfl, hs, hst⟩⟩
    | none =>
      rw [hf] at h
      exact Or.inl ⟨hd, Or.inr ⟨rfl, h⟩⟩
  · rw [if_neg hd] at h
    exact Or.inr ⟨by simpa using hd, h⟩

/-- One member's run touches no other cid's row. -/
theorem StepRel_other (alloc : List String → String → String → String)
    (dateOk : String → Bool) (m : RosterMember) (st st' : RosterSt)
    (cid : Nat) (h : StepRel alloc dateOk m st st') (hcid : ¬ cid = m.cid) :
    findController st' cid = findController st cid := by
  rcases StepRel_elim alloc dateOk m st st' h with
    ⟨_, ⟨c, s, _, _, hst⟩ | ⟨_, hst⟩⟩ | ⟨_, hst⟩
  · rw [hst]; exact findController_applyUpsert_other alloc st m s cid hcid
  · rw [hst]
    exact findController_applyUpsert_other alloc st m _ cid hcid
  · rw [hst]

/-- One member's run can only grow the role set stored on any row. -/
theorem StepRel_roles_mono (alloc : List String → String → String → String)
    (dateOk : String → Bool) (m : RosterMember) (st st' : RosterSt)
    (cid : Nat) (c : Controller) (h : StepRel alloc dateOk m st st')
    (hc : findController st cid = some c) :
    ∃ c', findController st' cid = some c' ∧
      rolesFinset c.roles ⊆ rolesFinset c'.roles := by
  rcases StepRel_elim alloc dateOk m st st' h with
    ⟨_, ⟨c0, s, hf, hs, hst⟩ | ⟨hf, hst⟩⟩ | ⟨_, hst⟩
  · by_cases hcid : cid = m.cid
    · subst hcid
      have hcc : c0 = c := by
        rw [hf] at hc
        exact Option.some.inj hc
      subst hcc
      have hset : rolesFinset s = rolesFinset c0.roles ∪ (extRoles m).toFinset :=
        rolesOutcome_rolesFinset c0.roles (extRoles m) s (extRoles_commaFree m) hs
      subst hst
      cases hon : c0.is_on_roster with
      | true =>
        refine ⟨upsertFields m c0 s, findController_applyUpsert_on alloc st m s c0 hf hon, ?_⟩
        show rolesFinset c0.roles ⊆ rolesFinset s
        rw [hset]
        exact Finset.subset_union_left
      | false =>
        refine ⟨_, findController_applyUpsert_off alloc st m s c0 hf hon, ?_⟩
        show rolesFinset c0.roles ⊆ rolesFinset s
        rw [hset]
        exact Finset.subset_union_left
    · subst hst
      exact ⟨c, by rw [findController_applyUpsert_other alloc st m s cid hcid]; exact hc,
        Finset.Subset.refl _⟩
  · by_cases hcid : cid = m.cid
    · subst hcid
      rw [hf] at hc
      exact absurd hc (by simp)
    · subst hst
      exact ⟨c, by rw [findController_applyUpsert_other alloc st m _ cid hcid]; exact hc,
        Finset.Subset.refl _⟩
  · subst hst
    exact ⟨c, hc, Finset.Subset.refl _⟩

/-- Cid list through a cid-preserving row rewrite. -/
theorem cidsOf_map_preserve (l : List Controller) (f : Controller → Controller)
    (hf : ∀ c, (f c).cid = c.cid) :
    (l.map f).map (fun c => c.cid) = l.map (fun c => c.cid) := by
  rw [List.map_map]
  apply List.map_congr_left
  intro c _
  exact hf c

/-- The write pass never deletes a controller row. -/
theorem cidsOf_applyUpsert_mono
    (alloc : List String → String → String → String) (st : RosterSt)
    (m : RosterMember) (s : String) (cid : Nat) (h : cid ∈ cidsOf st) :
    cid ∈ cidsOf (applyUpsert alloc st m s) := by
  have hup : cid ∈ cidsOf (upsertMain st m s) := by
    unfold upsertMain
    cases hfind : findController st m.cid with
    | some c0 =>
      show cid ∈ (st.controllers.map fun c =>
        if c.cid = m.cid then upsertFields m c s else c).map (fun c => c.cid)
      rw [cidsOf_map_preserve _ _ (fun c => by
        by_cases hc : c.cid = m.cid <;> simp [hc, upsertFields_cid])]
      exact h
    | none =>
      show cid ∈ (st.controllers ++ [newControllerFrom m s]).map (fun c => c.cid)
      rw [List.map_append]
      exact List.mem_append_left _ h
  unfold applyUpsert
  dsimp only
  split
  · show cid ∈ cidsOf (setOIs alloc (upsertMain st m s) m)
    unfold setOIs cidsOf
    dsimp only
    rw [cidsOf_map_preserve _ _ (fun c => by
      by_cases hc : c.cid = m.cid <;> simp [hc])]
    exact hup
  · exact hup

/-- One member's run never deletes a controller row. -/
theorem StepRel_cids_mono (alloc : List String → String → String → String)
    (dateOk : String → Bool) (m : RosterMember) (st st' : RosterSt)
    (cid : Nat) (h : StepRel alloc dateOk m st st') (hc : cid ∈ cidsOf st) :
    cid ∈ cidsOf st' := by
  rcases StepRel_elim alloc dateOk m st st' h with
    ⟨_, ⟨c0, s, _, _, hst⟩ | ⟨_, hst⟩⟩ | ⟨_, hst⟩
  · subst hst; exact cidsOf_applyUpsert_mono alloc st m s cid hc
  · subst hst; exact cidsOf_applyUpsert_mono alloc st m _ cid hc
  · subst hst; exact hc

/-- The member loop leaves cids outside the snapshot untouched. -/
theorem Phase1_other (alloc : List String → String → String → String)
    (dateOk : String → Bool) :
    ∀ (members : List RosterMember) (st stm : RosterSt) (cid : Nat),
    Phase1 alloc dateOk members st stm →
    (¬ cid ∈ members.map (fun m => m.cid)) →
    findController stm cid = findController st cid := by
  intro members
  induction members with
  | nil =>
    intro st stm cid hP _
    rw [hP]
  | cons m0 rest ih =>
    intro st stm cid hP hmem
    obtain ⟨st1, hstep, hPrest⟩ := hP
    have h1 : ¬ cid ∈ rest.map (fun m => m.cid) := by
      intro hc
      exact hmem (List.mem_cons_of_mem _ hc)
    have h0 : ¬ cid = m0.cid := by
      intro hc
      exact hmem (by rw [List.map_cons]; exact hc ▸ List.mem_cons_self _ _)
    rw [ih st1 stm cid hPrest h1,
      StepRel_other alloc dateOk m0 st st1 cid hstep h0]

/-- The member loop only grows every stored role set. -/
theorem Phase1_roles_mono (alloc : List String → String → String → String)
    (dateOk : String → Bool) :
    ∀ (members : List RosterMember) (st stm : RosterSt) (cid : Nat)
      (c : Controller),
    Phase1 alloc dateOk members st stm → findController st cid = some c →
    ∃ c', findController stm cid = some c' ∧
      rolesFinset c.roles ⊆ rolesFinset c'.roles := by
  intro members
  induction members with
  | nil =>
    intro st stm cid c hP hc
    rw [hP]
    exact ⟨c, hc, Finset.Subset.refl _⟩
  | cons m0 rest ih =>
    intro st stm cid c hP hc
    obtain ⟨st1, hstep, hPrest⟩ := hP
    obtain ⟨c1, hc1, hsub1⟩ :=
      StepRel_roles_mono alloc dateOk m0 st st1 cid c hstep hc
    obtain ⟨c2, hc2, hsub2⟩ := ih st1 stm cid c1 hPrest hc1
    exact ⟨c2, hc2, hsub1.trans hsub2⟩

/-- The member loop never deletes a controller row. -/
theorem Phase1_cids_mono (alloc : List String → String → String → String)
    (dateOk : String → Bool) :
    ∀ (members : List RosterMember) (st stm : RosterSt) (cid : Nat),
    Phase1 alloc dateOk members st stm → cid ∈ cidsOf st →
    cid ∈ cidsOf stm := by
  intro members
  induction members with
  | nil =>
    intro st stm cid hP hc
    rw [hP]
    exact hc
  | cons m0 rest ih =>
    intro st stm cid hP hc
    obtain ⟨st1, hstep, hPrest⟩ := hP
    exact ih st1 stm cid hPrest
      (StepRel_cids_mono alloc dateOk m0 st st1 cid hstep hc)

/-- With a duplicate-free snapshot, each member's row is decided by
that member's own run: the loop neither touches it before nor after. -/
theorem Phase1_member (alloc : List String → String → String → String)
    (dateOk : String → Bool) :
    ∀ (members : List RosterMember) (st stm : RosterSt) (m : RosterMember),
    ((members.map (fun x => x.cid)).Nodup) →
    Phase1 alloc dateOk members st stm → m ∈ members →
    ∃ pre post, StepRel alloc dateOk m pre post ∧
      findController pre m.cid = findController st m.cid ∧
      findController stm m.cid = findController post m.cid := by
  intro members
  induction members with
  | nil =>
    intro st stm m _ _ hm
    exact absurd hm (List.not_mem_nil m)
  | cons m0 rest ih =>
    intro st stm m hnd hP hm
    obtain ⟨st1, hstep, hPrest⟩ := hP
    rw [List.map_cons, List.nodup_cons] at hnd
    rcases List.mem_cons.mp hm with rfl | hmem
    · refine ⟨st, st1, hstep, rfl, ?_⟩
      exact Phase1_other alloc dateOk rest st1 stm m.cid hPrest hnd.1
    · obtain ⟨pre, post, h1, h2, h3⟩ := ih st1 stm m hnd.2 hPrest hmem
      refine ⟨pre, post, h1, ?_, h3⟩
      rw [h2]
      apply StepRel_other alloc dateOk m0 st st1 m.cid hstep
      intro heq
      exact hnd.1 (heq ▸ List.mem_map.mpr ⟨m, hmem, rfl⟩)

/-- The removed-controller pass never deletes certification rows (the
cascade is the identity), so the certification table is unchanged. -/
theorem foldl_cascade_id :
    ∀ (l : List Nat) (certs : List Certification),
    l.foldl offRosterCascadeCerts certs = certs := by
  intro l
  induction l with
  | nil => intro certs; rfl
  | cons a rest ih =>
    intro certs
    rw [List.foldl_cons, offRosterCascadeCerts_eq, ih]

/-- The removed-controller pass leaves the certification table
byte-identical. -/
theorem markRemoved_certifications (st : RosterSt) (E : List Nat) :
    (markRemoved st E).certifications = st.certifications := by
  unfold markRemoved
  exact foldl_cascade_id _ st.certifications

/-- Row lookup through the removed-controller pass. -/
theorem findController_markRemoved (st : RosterSt) (E : List Nat) (cid : Nat) :
    findController (markRemoved st E) cid
      = (findController st cid).map (fun c =>
          if E.contains c.cid then c else clearRemoved c) := by
  unfold markRemoved findController
  dsimp only
  rw [find?_cid_map _ _ (fun c => by split <;> rfl) cid]

/-- Rows of cids in the snapshot are untouched by the
removed-controller pass. -/
theorem findController_markRemoved_mem (st : RosterSt) (E : List Nat)
    (cid : Nat) (h : cid ∈ E) :
    findController (markRemoved st E) cid = findController st cid := by
  rw [findController_markRemoved]
  cases hres : findController st cid with
  | none => rfl
  | some r =>
    rw [Option.map_some']
    rw [if_pos (by
      have hr : r.cid = cid := findController_cid st cid r hres
      rw [hr]
      simpa using h)]

/-- Rows of cids outside the snapshot are cleared by the
removed-controller pass. -/
theorem findController_markRemoved_not_mem (st : RosterSt) (E : List Nat)
    (cid : Nat) (h : ¬ cid ∈ E) :
    findController (markRemoved st E) cid
      = (findController st cid).map clearRemoved := by
  rw [findController_markRemoved]
  cases hres : findController st cid with
  | none => rfl
  | some r =>
    rw [Option.map_some', Option.map_some']
    rw [if_neg (by
      have hr : r.cid = cid := findController_cid st cid r hres
      rw [hr]
      simpa using h)]

/-- C4: in a full roster sync over snapshot `members`, the
removed-controller pass marks exactly the stored cids absent from the
snapshot: their rows get `is_on_roster=false`, `home_facility=''`,
`join_date=NULL`, `operating_initials=NULL` with every other column
(roles included) unchanged from before the sync; rows of snapshot
cids are not touched by the pass; no controller row is ever deleted;
and the certification table is not changed by the pass (the strip is
a no-op, claim C2). -/
theorem C4_off_roster_set_correctness
    (alloc : List String → String → String → String) (dateOk : String → Bool)
    (st stm st' : RosterSt) (members : List RosterMember)
    (hP : Phase1 alloc dateOk members st stm)
    (hmark : st' = markRemoved stm (members.map (fun m => m.cid))) :
    (∀ cid, ¬ cid ∈ members.map (fun m => m.cid) →
      findController st' cid = (findController st cid).map clearRemoved) ∧
    (∀ cid, cid ∈ members.map (fun m => m.cid) →
      findController st' cid = findController stm cid) ∧
    (∀ cid, cid ∈ cidsOf st → cid ∈ cidsOf st') ∧
    st'.certifications = stm.certifications := by
  subst hmark
  refine ⟨?_, ?_, ?_, markRemoved_certifications stm _⟩
  · intro cid hcid
    rw [findController_markRemoved_not_mem stm _ cid hcid,
      Phase1_other alloc dateOk members st stm cid hP hcid]
  · intro cid hcid
    exact findController_markRemoved_mem stm _ cid hcid
  · intro cid hcid
    have h1 := Phase1_cids_mono alloc dateOk members st stm cid hP hcid
    show cid ∈ cidsOf (markRemoved stm _)
    unfold markRemoved cidsOf
    dsimp only
    rw [cidsOf_map_preserve _ _ (fun c => by split <;> rfl)]
    exact h1

/-- Concrete run of `update_controller_record` for the C4 fixture. -/
theorem step4_concrete : StepRel allocX okDate memA st4 stm4 := by
  unfold StepRel
  rw [if_pos (by decide)]
  show ∃ s, rolesOutcome ctrlA.roles (extRoles memA) s ∧
    stm4 = applyUpsert allocX st4 memA s
  exact ⟨"ATM,MTR", ⟨["ATM", "MTR"], by decide, by decide, rfl⟩, rfl⟩

/-- Witness for C4 at the concrete fixture store. -/
theorem C4_witness :
    findController st4p 2 = (findController st4 2).map clearRemoved ∧
    findController st4p 1 = findController stm4 1 ∧
    (2 ∈ cidsOf st4p) ∧
    st4p.certifications = stm4.certifications := by
  have h := C4_off_roster_set_correctness allocX okDate st4 stm4 st4p [memA]
    ⟨stm4, step4_concrete, rfl⟩ rfl
  exact ⟨h.1 2 (by decide), h.2.1 1 (by decide), h.2.2.1 2 (by decide),
    h.2.2.2⟩

/-- C7: automatic sync only adds roles.  After a full sync (member
loop plus removed-controller pass) every controller with an existing
local record stores a role set that is a superset of the one stored
before; the same holds for the single-member quick sync, whatever
member record the external source returns (including one carrying no
recognized role information). -/
theorem C7_monotonic_role_merge
    (alloc : List String → String → String → String) (dateOk : String → Bool)
    (st st1 : RosterSt) (members : List RosterMember)
    (hfull : FullSyncRel alloc dateOk st members st1)
    (cid : Nat) (c : Controller) (hc : findController st cid = some c)
    (m2 : RosterMember) (stq stq' : RosterSt) (cid2 : Nat) (c2 : Controller)
    (hq : QuickSyncRel alloc dateOk m2 stq stq')
    (hc2 : findController stq cid2 = some c2) :
    (∃ c', findController st1 cid = some c' ∧
      rolesFinset c.roles ⊆ rolesFinset c'.roles) ∧
    (∃ c2', findController stq' cid2 = some c2' ∧
      rolesFinset c2.roles ⊆ rolesFinset c2'.roles) := by
  constructor
  · obtain ⟨stm, hP, rfl⟩ := hfull
    obtain ⟨cm, hcm, hsub⟩ :=
      Phase1_roles_mono alloc dateOk members st stm cid c hP hc
    rw [findController_markRemoved, hcm, Option.map_some']
    refine ⟨_, rfl, ?_⟩
    split
    · exact hsub
    · exact hsub
  · exact StepRel_roles_mono alloc dateOk m2 stq stq' cid2 c2 hq hc2

/-- Concrete quick-sync run for the off-roster fixture controller. -/
theorem step9_concrete : QuickSyncRel allocX okDate memB st9 st9b := by
  unfold QuickSyncRel StepRel
  rw [if_pos (by decide)]
  show ∃ s, rolesOutcome ctrlB.roles (extRoles memB) s ∧
    st9b = applyUpsert allocX st9 memB s
  exact ⟨"EC", ⟨["EC"], by decide, by decide, rfl⟩, rfl⟩

/-- Witness for C7 at the concrete fixtures: the full sync grows
`ctrlA`'s role set, and a quick sync reporting no role information
leaves `ctrlB`'s role `EC` in place. -/
theorem C7_witness :
    rolesFinset ctrlA.roles ⊆ rolesFinset r6a.roles ∧
    rolesFinset ctrlB.roles ⊆ rolesFinset "EC" := by
  have h := C7_monotonic_role_merge allocX okDate st6 st6a [memA]
    ⟨applyUpsert allocX st6 memA "ATM,MTR",
      ⟨applyUpsert allocX st6 memA "ATM,MTR", by
        unfold StepRel
        rw [if_pos (by decide)]
        show ∃ s, rolesOutcome ctrlA.roles (extRoles memA) s ∧
          applyUpsert allocX st6 memA "ATM,MTR"
            = applyUpsert allocX st6 memA s
        exact ⟨"ATM,MTR", ⟨["ATM", "MTR"], by decide, by decide, rfl⟩, rfl⟩,
        rfl⟩, rfl⟩
    1 ctrlA rfl memB st9 st9b 2 ctrlB step9_concrete rfl
  obtain ⟨⟨c', hc', hsub⟩, ⟨c2', hc2', hsub2⟩⟩ := h
  constructor
  · have hval : findController st6a 1 = some r6a := rfl
    rw [hval] at hc'
    have : c' = r6a := (Option.some.inj hc').symm
    rw [← this]
    exact hsub
  · have hval : findController st9b 2 = some { upsertFields memB ctrlB "EC" with operating_initials := some "XX" } := rfl
    rw [hval] at hc2'
    have hcc : c2' = { upsertFields memB ctrlB "EC" with operating_initials := some "XX" } :=
      (Option.some.inj hc2').symm
    rw [hcc] at hsub2
    exact hsub2

/-- C9: a quick (queue-requested) sync runs the very same per-member
upsert as the full sync on whatever member record the single-member
fetch returned, with no roster-membership check: the stored row ends
up with `is_on_roster = true` unconditionally, and — because the cid
was previously off-roster or unknown — fresh operating initials are
allocated (on the in-use set read after the upsert) and persisted.
An off-roster controller is thereby silently resurrected. -/
theorem C9_quick_sync_resurrection
    (alloc : List String → String → String → String) (dateOk : String → Bool)
    (m : RosterMember) (st st' : RosterSt)
    (hd : dateOk m.facility_join = true)
    (hq : QuickSyncRel alloc dateOk m st st')
    (hoff : findController st m.cid = none ∨
      ∃ c, findController st m.cid = some c ∧ c.is_on_roster = false) :
    (∃ r, findController st' m.cid = some r ∧ r.is_on_roster = true) ∧
    (∃ s r, findController st' m.cid = some r ∧
      r.operating_initials
        = some (alloc (inUseOIs (upsertMain st m s)) m.first_name m.last_name)) := by
  rcases StepRel_elim alloc dateOk m st st' hq with
    ⟨_, ⟨c0, s, hf, _, hst⟩ | ⟨hf, hst⟩⟩ | ⟨hdf, _⟩
  · have hc0off : c0.is_on_roster = false := by
      rcases hoff with hnone | ⟨c1, hc1, hoffc⟩
      · rw [hf] at hnone
        exact absurd hnone (by simp)
      · rw [hf] at hc1
        rw [Option.some.inj hc1]
        exact hoffc
    subst hst
    have hfind := findController_applyUpsert_off alloc st m s c0 hf hc0off
    constructor
    · exact ⟨_, hfind, rfl⟩
    · exact ⟨s, _, hfind, rfl⟩
  · subst hst
    have hfind := findController_applyUpsert_new alloc st m
      (joinComma (extRoles m)) hf
    constructor
    · exact ⟨_, hfind, rfl⟩
    · exact ⟨joinComma (extRoles m), _, hfind, rfl⟩
  · rw [hdf] at hd
    exact absurd hd (by simp)

/-- Witness for C9: after a quick sync for the off-roster fixture
controller (whose fetched record is not even a ZDV member), the row
is on roster and carries the freshly allocated initials. -/
theorem C9_witness :
    (findController st9b memB.cid).map (fun r => r.is_on_roster) = some true ∧
    (findController st9b memB.cid).map (fun r => r.operating_initials)
      = some (some "XX") := by
  have h := C9_quick_sync_resurrection allocX okDate memB st9 st9b
    (by decide) step9_concrete
    (Or.inr ⟨ctrlB, rfl, rfl⟩)
  obtain ⟨⟨r, hr, hron⟩, ⟨s, r2, hr2, hroi⟩⟩ := h
  constructor
  · rw [hr, Option.map_some', hron]
  · rw [hr2, Option.map_some', hroi]
    rfl

/-- A controller lookup agrees with itself up to role order. -/
theorem RecAgree_refl (o : Option Controller) : RecAgree o o := by
  cases o with
  | none => trivial
  | some c => exact ⟨rfl, rfl⟩

/-- After a successful member run, the member's row holds the upserted
fields (so re-upserting them is the identity) and its role set covers
the externally-derived codes. -/
theorem StepRel_post_record (alloc : List String → String → String → String)
    (dateOk : String → Bool) (m : RosterMember) (st st' : RosterSt)
    (hd : dateOk m.facility_join = true)
    (h : StepRel alloc dateOk m st st') :
    ∃ r, findController st' m.cid = some r ∧
      upsertFields m r r.roles = r ∧
      (extRoles m).toFinset ⊆ rolesFinset r.roles := by
  rcases StepRel_elim alloc dateOk m st st' h with
    ⟨_, ⟨c0, s, hf, hs, hst⟩ | ⟨hf, hst⟩⟩ | ⟨hdf, _⟩
  · have hset : rolesFinset s
        = rolesFinset c0.roles ∪ (extRoles m).toFinset :=
      rolesOutcome_rolesFinset c0.roles (extRoles m) s (extRoles_commaFree m) hs
    subst hst
    cases hon : c0.is_on_roster with
    | true =>
      refine ⟨upsertFields m c0 s,
        findController_applyUpsert_on alloc st m s c0 hf hon, rfl, ?_⟩
      show (extRoles m).toFinset ⊆ rolesFinset s
      rw [hset]
      exact Finset.subset_union_right
    | false =>
      refine ⟨_, findController_applyUpsert_off alloc st m s c0 hf hon, rfl, ?_⟩
      show (extRoles m).toFinset ⊆ rolesFinset s
      rw [hset]
      exact Finset.subset_union_right
  · subst hst
    refine ⟨_, findController_applyUpsert_new alloc st m
      (joinComma (extRoles m)) hf, rfl, ?_⟩
    show (extRoles m).toFinset ⊆ rolesFinset (joinComma (extRoles m))
    cases hL : extRoles m with
    | nil => simp
    | cons a t =>
      rw [← hL, rolesFinset_joinComma (extRoles m) (extRoles_commaFree m)
        (by rw [hL]; simp)]
  · rw [hdf] at hd
    exact absurd hd (by simp)

/-- Re-running the member upsert on an already-upserted row only
re-enumerates its role set: the set is unchanged and every other
column is byte-identical. -/
theorem StepRel_idem_record (alloc : List String → String → String → String)
    (dateOk : String → Bool) (m : RosterMember) (st1 st2 : RosterSt)
    (r1 : Controller) (hd : dateOk m.facility_join = true)
    (h : StepRel alloc dateOk m st1 st2)
    (hr1 : findController st1 m.cid = some r1)
    (hups : upsertFields m r1 r1.roles = r1)
    (hcov : (extRoles m).toFinset ⊆ rolesFinset r1.roles) :
    ∃ r2, findController st2 m.cid = some r2 ∧
      rolesFinset r2.roles = rolesFinset r1.roles ∧
      r2 = { r1 with roles := r2.roles } := by
  rcases StepRel_elim alloc dateOk m st1 st2 h with
    ⟨_, ⟨c0, s, hf, hs, hst⟩ | ⟨hf, _⟩⟩ | ⟨hdf, _⟩
  · have hc0 : c0 = r1 := by
      rw [hf] at hr1
      exact Option.some.inj hr1
    subst hc0
    have hon : c0.is_on_roster = true := by
      conv_lhs => rw [← hups]
      rfl
    subst hst
    refine ⟨upsertFields m c0 s,
      findController_applyUpsert_on alloc st1 m s c0 hf hon, ?_, ?_⟩
    · show rolesFinset s = rolesFinset c0.roles
      rw [rolesOutcome_rolesFinset c0.roles (extRoles m) s
        (extRoles_commaFree m) hs]
      exact Finset.union_eq_left.mpr hcov
    · show upsertFields m c0 s = { c0 with roles := s }
      conv_rhs => rw [← hups]
      rfl
  · rw [hf] at hr1
    exact absurd hr1 (by simp)
  · rw [hdf] at hd
    exact absurd hd (by simp)

/-- C6 as amended: running the full roster sync twice against the same
duplicate-free snapshot leaves, for every cid, a second-run row that
denotes the same role set as the first-run row and is byte-identical
to it in every other column; only the comma-joined enumeration order
of the roles string may differ (hash-set iteration order is
unspecified). -/
theorem C6_full_sync_idempotent_up_to_role_order
    (alloc : List String → String → String → String) (dateOk : String → Bool)
    (st st1 st2 : RosterSt) (members : List RosterMember)
    (hnd : ((members.map (fun m => m.cid)).Nodup))
    (h1 : FullSyncRel alloc dateOk st members st1)
    (h2 : FullSyncRel alloc dateOk st1 members st2) :
    ∀ cid, RecAgree (findController st1 cid) (findController st2 cid) := by
  obtain ⟨stm1, hP1, hm1⟩ := h1
  obtain ⟨stm2, hP2, hm2⟩ := h2
  intro cid
  by_cases hmem : cid ∈ members.map (fun m => m.cid)
  · obtain ⟨m, hmmem, hmcid⟩ := List.mem_map.mp hmem
    subst hmcid
    have e1 : findController st1 m.cid = findController stm1 m.cid := by
      rw [hm1]
      exact findController_markRemoved_mem stm1 _ m.cid hmem
    have e2 : findController st2 m.cid = findController stm2 m.cid := by
      rw [hm2]
      exact findController_markRemoved_mem stm2 _ m.cid hmem
    by_cases hd : dateOk m.facility_join = true
    · obtain ⟨pre1, post1, hstep1, hpre1, hpost1⟩ :=
        Phase1_member alloc dateOk members st stm1 m hnd hP1 hmmem
      obtain ⟨r1, hr1post, hups, hcov⟩ :=
        StepRel_post_record alloc dateOk m pre1 post1 hd hstep1
      have hr1 : findController st1 m.cid = some r1 := by
        rw [e1, hpost1]
        exact hr1post
      obtain ⟨pre2, post2, hstep2, hpre2, hpost2⟩ :=
        Phase1_member alloc dateOk members st1 stm2 m hnd hP2 hmmem
      have hpre2r : findController pre2 m.cid = some r1 := by
        rw [hpre2]
        exact hr1
      obtain ⟨r2, hr2post, hset, hbyte⟩ :=
        StepRel_idem_record alloc dateOk m pre2 post2 r1 hd hstep2 hpre2r
          hups hcov
      have hr2 : findController st2 m.cid = some r2 := by
        rw [e2, hpost2]
        exact hr2post
      rw [hr1, hr2]
      exact ⟨hset, hbyte⟩
    · obtain ⟨pre1, post1, hstep1, hpre1, hpost1⟩ :=
        Phase1_member alloc dateOk members st stm1 m hnd hP1 hmmem
      obtain ⟨pre2, post2, hstep2, hpre2, hpost2⟩ :=
        Phase1_member alloc dateOk members st1 stm2 m hnd hP2 hmmem
      rcases StepRel_elim alloc dateOk m pre1 post1 hstep1 with
        ⟨hdt, _⟩ | ⟨_, hid1⟩
      · exact absurd hdt hd
      rcases StepRel_elim alloc dateOk m pre2 post2 hstep2 with
        ⟨hdt, _⟩ | ⟨_, hid2⟩
      · exact absurd hdt hd
      have e1' : findController st1 m.cid = findController st m.cid := by
        rw [e1, hpost1, hid1, hpre1]
      have e2' : findController st2 m.cid = findController st1 m.cid := by
        rw [e2, hpost2, hid2, hpre2]
      rw [e2']
      exact RecAgree_refl _
  · have e1 : findController st1 cid
        = (findController st cid).map clearRemoved := by
      rw [hm1, findController_markRemoved_not_mem stm1 _ cid hmem,
        Phase1_other alloc dateOk members st stm1 cid hP1 hmem]
    have e2 : findController st2 cid
        = (findController st1 cid).map clearRemoved := by
      rw [hm2, findController_markRemoved_not_mem stm2 _ cid hmem,
        Phase1_other alloc dateOk members st1 stm2 cid hP2 hmem]
    rw [e2, e1]
    cases findController st cid with
    | none => exact trivial
    | some c =>
      exact RecAgree_refl (some (clearRemoved c))

/-- First concrete full sync over the one-member snapshot, with the
role hash set enumerated as ATM, MTR. -/
theorem fullSync6_first : FullSyncRel allocX okDate st6 [memA] st6a := by
  refine ⟨applyUpsert allocX st6 memA "ATM,MTR",
    ⟨applyUpsert allocX st6 memA "ATM,MTR", ?_, rfl⟩, rfl⟩
  unfold StepRel
  rw [if_pos (by decide)]
  show ∃ s, rolesOutcome ctrlA.roles (extRoles memA) s ∧
    applyUpsert allocX st6 memA "ATM,MTR" = applyUpsert allocX st6 memA s
  exact ⟨"ATM,MTR", ⟨["ATM", "MTR"], by decide, by decide, rfl⟩, rfl⟩

/-- Second concrete full sync over the same snapshot, with the role
hash set enumerated the other way round. -/
theorem fullSync6_second : FullSyncRel allocX okDate st6a [memA] st6b := by
  refine ⟨applyUpsert allocX st6a memA "MTR,ATM",
    ⟨applyUpsert allocX st6a memA "MTR,ATM", ?_, rfl⟩, rfl⟩
  unfold StepRel
  rw [if_pos (by decide)]
  show ∃ s, rolesOutcome r6a.roles (extRoles memA) s ∧
    applyUpsert allocX st6a memA "MTR,ATM" = applyUpsert allocX st6a memA s
  exact ⟨"MTR,ATM", ⟨["MTR", "ATM"], by decide, by decide, rfl⟩, rfl⟩

/-- C6 counterexample: two successive full syncs against the same
snapshot are both admissible executions, yet the stored roles strings
differ byte-wise ("ATM,MTR" vs "MTR,ATM") because the merge joins an
unspecified hash-set enumeration — byte-identical rows are not
guaranteed. -/
theorem C6_counterexample :
    FullSyncRel allocX okDate st6 [memA] st6a ∧
    FullSyncRel allocX okDate st6a [memA] st6b ∧
    (findController st6a 1).map (fun c => c.roles) = some "ATM,MTR" ∧
    (findController st6b 1).map (fun c => c.roles) = some "MTR,ATM" ∧
    ¬ (("ATM,MTR" : String) = "MTR,ATM") :=
  ⟨fullSync6_first, fullSync6_second, rfl, rfl, by decide⟩

/-- Witness for the amended C6 at the concrete fixture runs. -/
theorem C6_witness :
    RecAgree (findController st6a 1) (findController st6b 1) :=
  C6_full_sync_idempotent_up_to_role_order allocX okDate st6 st6a st6b
    [memA] (by decide) fullSync6_first fullSync6_second 1
